import Mathlib

/-!
# The e-mail parsing engine of `server.js`

A shallow embedding of `decodeQuotedPrintable`, `parseMultipart`, `parseEmail`
(with its inner `parseAddresses`), of the platform string and `Buffer`
operations they call, and of the routes of the service with the middleware
`authenticateToken`, followed by theorems about them.

Modelling conventions.
* A JavaScript string is the list of its UTF-16 code units (`JSString`), so that
  `.length`, `substring`, `indexOf`, `split` and the regular expressions of the
  source (none of which has the `u` flag) act on exactly the same positions.
* `toLowerCase` is the platform's Unicode lower-casing; the model lower-cases
  `A`..`Z` and leaves every other code unit unchanged.
* `Buffer.from(s, 'base64')`, `Buffer.from(s)`, `buf.toString('utf8')` and
  `buf.toString('base64')` are platform functions; they are modelled after the
  Node.js behaviour (lenient base64 decoding that never throws, UTF-8 decoding
  with U+FFFD replacement).
* The `date` field of the parsed message is `new Date(...)` of the header or of
  the clock; it is left out of the record.
* `parseMultipart` is recursive on the body of a nested part. The model carries
  an explicit recursion budget and returns `none` if the budget is exhausted.
  The call stack of the runtime is not modelled: a result of the model at a
  nesting depth that exhausts the stack says nothing about the program there.
-/

namespace EmailViewer

/-! ## JavaScript strings -/

/-- A JavaScript string, as the sequence of its UTF-16 code units. -/
abbrev JSString := List Nat

/-- UTF-16 code units of one Unicode scalar value. -/
def utf16Units (c : Nat) : List Nat :=
  if c < 65536 then [c] else [55296 + (c - 65536) / 1024, 56320 + (c - 65536) % 1024]

/-- The JavaScript string written as a literal. -/
def js (s : String) : JSString := s.toList.flatMap (fun c => utf16Units c.toNat)

/-- White space and line terminators: the set removed by `trim()` and matched by `\s`. -/
def isWhiteSpace (c : Nat) : Bool :=
  c == 9 || c == 10 || c == 11 || c == 12 || c == 13 || c == 32 || c == 160 || c == 5760 ||
  (8192 ≤ c && c ≤ 8202) || c == 8232 || c == 8233 || c == 8239 || c == 8287 ||
  c == 12288 || c == 65279

/-- The method `trimStart()`. -/
def trimStart (s : JSString) : JSString := s.dropWhile isWhiteSpace

/-- The method `trim()`. -/
def trim (s : JSString) : JSString := (trimStart (trimStart s).reverse).reverse

/-- The method `s.startsWith(p)`. -/
def startsWith : JSString → JSString → Bool
  | _, [] => true
  | [], _ :: _ => false
  | c :: cs, p :: ps => c == p && startsWith cs ps

/-- The method `s.includes(sub)`. -/
def includes : JSString → JSString → Bool
  | [], sub => sub.isEmpty
  | c :: cs, sub => startsWith (c :: cs) sub || includes cs sub

/-- The method `s.indexOf(c)` for a one-unit string `c`; `none` stands for `-1`. -/
def indexOf : JSString → Nat → Option Nat
  | [], _ => none
  | x :: xs, c => if x = c then some 0 else (indexOf xs c).map (· + 1)

/-- Cut `s` at the leftmost occurrence of the non-empty string `sep`:
the text before it and the text after it. -/
def breakOn (sep : JSString) : JSString → Option (JSString × JSString)
  | [] => none
  | c :: cs =>
    if startsWith (c :: cs) sep then some ([], (c :: cs).drop sep.length)
    else match breakOn sep cs with
      | some (a, b) => some (c :: a, b)
      | none => none

/-- Repeated cutting at `sep`, at most `n` times. -/
def splitFuel (sep : JSString) : Nat → JSString → List JSString
  | 0, s => [s]
  | n + 1, s =>
    match breakOn sep s with
    | none => [s]
    | some (a, b) => a :: splitFuel sep n b

/-- The method `s.split(sep)` for a string separator: the empty separator
splits into single code units, otherwise `s` is cut at the successive
non-overlapping occurrences of `sep` (every cut consumes at least one unit, so
`s.length` cuts are enough). -/
def split (s sep : JSString) : List JSString :=
  if sep = [] then s.map (fun c => [c]) else splitFuel sep s.length s

/-- The call `s.split(/\r?\n/)`. -/
def splitLines : JSString → List JSString
  | [] => [[]]
  | c :: cs =>
    if c = 10 then [] :: splitLines cs
    else if c = 13 ∧ cs.head? = some 10 then splitLines cs
    else match splitLines cs with
      | l :: ls => (c :: l) :: ls
      | [] => [[c]]

/-- The method `parts.join(sep)`. -/
def join (sep : JSString) : List JSString → JSString
  | [] => []
  | [x] => x
  | x :: y :: r => x ++ sep ++ join sep (y :: r)

/-- The method `toLowerCase()` on the ASCII range. -/
def toLowerCase (s : JSString) : JSString :=
  s.map (fun c => if 65 ≤ c ∧ c ≤ 90 then c + 32 else c)

/-- The expression `a || b` on strings: `a` unless it is empty. -/
def orElse (a b : JSString) : JSString := if a = [] then b else a

/-! ## Regular expressions of the source -/

/-- Leftmost match: try the anchored matcher at every start position in turn. -/
def firstMatch (f : JSString → Option JSString) : JSString → Option JSString
  | [] => f []
  | c :: cs =>
    match f (c :: cs) with
    | some m => some m
    | none => firstMatch f cs

/-- Capture group of `lit([^q]+)q` anchored at the head of `s`, where `q` is
the code unit `close`: the literal, then the longest non-empty run without
`close`, then `close` itself. -/
def delimAt (lit : JSString) (close : Nat) (s : JSString) : Option JSString :=
  if startsWith s lit then
    let rest := s.drop lit.length
    let run := rest.takeWhile (fun c => c != close)
    if run ≠ [] ∧ (rest.drop run.length).head? = some close then some run else none
  else none

/-- Capture group of `lit([^;\s]+)` anchored at the head of `s`. -/
def bareAt (lit : JSString) (s : JSString) : Option JSString :=
  if startsWith s lit then
    let run := (s.drop lit.length).takeWhile (fun c => c != 59 && !isWhiteSpace c)
    if run ≠ [] then some run else none
  else none

/-- The expression
`v.match(/name="([^"]+)"/)?.[1] || v.match(/name=([^;\s]+)/)?.[1]` where
`name` is `boundary` or `filename`; `none` when neither expression matches. -/
def matchParam (name : JSString) (v : JSString) : Option JSString :=
  match firstMatch (delimAt (name ++ [61, 34]) 34) v with
  | some m => some m
  | none => firstMatch (bareAt (name ++ [61])) v

/-- Membership in the class `[^<\s]`. -/
def isLocalUnit (c : Nat) : Bool := c != 60 && !isWhiteSpace c

/-- Membership in the class `[^>\s]`. -/
def isDomainUnit (c : Nat) : Bool := c != 62 && !isWhiteSpace c

/-- Capture group of `([^<\s]+@[^>\s]+)` anchored at the head of `s`. The first
class is greedy and then gives back units until an `@` followed by a unit of
the second class is found: `q` is the largest position of such an `@` inside
the run of the first class. -/
def bareAddrAt (s : JSString) : Option JSString :=
  let e := (s.takeWhile isLocalUnit).length
  match (List.range e).reverse.find?
      (fun q => decide (0 < q) && s.get? q == some 64 && (s.get? (q + 1)).any isDomainUnit) with
  | some q => some (s.take (q + 1) ++ (s.drop (q + 1)).takeWhile isDomainUnit)
  | none => none

/-- The method `s.replace(re, f)` for a global expression `re` that matches no
empty string: `m` gives, for a match anchored at the head, its length and its
replacement; the first argument counts the units of a match still to be
skipped. The call itself is `replaceAll m 0 s`. -/
def replaceAll (m : JSString → Option (Nat × JSString)) : Nat → JSString → JSString
  | _, [] => []
  | k + 1, _ :: cs => replaceAll m k cs
  | 0, c :: cs =>
    match m (c :: cs) with
    | some (n, rep) => rep ++ replaceAll m (n - 1) cs
    | none => c :: replaceAll m 0 cs

/-- The expression `=\r?\n`, replaced by the empty string. -/
def softBreakAt (s : JSString) : Option (Nat × JSString) :=
  if startsWith s [61, 10] then some (2, [])
  else if startsWith s [61, 13, 10] then some (3, [])
  else none

/-- A literal expression `pat`, replaced by `rep`. -/
def literalAt (pat rep : JSString) (s : JSString) : Option (Nat × JSString) :=
  if startsWith s pat then some (pat.length, rep) else none

/-- Value of a digit of the class `[0-9A-F]`. -/
def hexVal (c : Nat) : Option Nat :=
  if 48 ≤ c ∧ c ≤ 57 then some (c - 48)
  else if 65 ≤ c ∧ c ≤ 70 then some (c - 55)
  else none

/-- The expression `=([0-9A-F]{2})` with the callback of lines 25-32: the
escape becomes the code unit `parseInt(hex, 16)`, or nothing for 0xC2 and 0xC3. -/
def hexEscapeAt (s : JSString) : Option (Nat × JSString) :=
  match s with
  | 61 :: a :: b :: _ =>
    match hexVal a, hexVal b with
    | some x, some y =>
      let charCode := 16 * x + y
      if charCode = 194 ∨ charCode = 195 then some (3, []) else some (3, [charCode])
    | _, _ => none
  | _ => none

/-! ## Platform `Buffer` operations -/

/-- Value of a base64 digit as read by `Buffer.from(s, 'base64')`: the standard
and the URL-safe alphabet; every other byte is not a digit. -/
def unbase64 (c : Nat) : Option Nat :=
  if 65 ≤ c ∧ c ≤ 90 then some (c - 65)
  else if 97 ≤ c ∧ c ≤ 122 then some (c - 71)
  else if 48 ≤ c ∧ c ≤ 57 then some (c + 4)
  else if c = 43 ∨ c = 45 then some 62
  else if c = 47 ∨ c = 95 then some 63
  else none

/-- Bytes of a run of six-bit digits; an incomplete last group gives the bytes
that are fully determined. -/
def sextetsToBytes : List Nat → List Nat
  | a :: b :: c :: d :: r =>
    (a * 4 + b / 16) :: ((b % 16) * 16 + c / 4) :: ((c % 4) * 64 + d) :: sextetsToBytes r
  | [a, b, c] => [a * 4 + b / 16, (b % 16) * 16 + c / 4]
  | [a, b] => [a * 4 + b / 16]
  | _ => []

/-- The call `Buffer.from(s, 'base64')`: every code unit is read modulo 256,
decoding stops at the first `=`, and units that are no base64 digit are
skipped. A thrown exception would be `none`; no input makes the platform
function throw, so the result is always `some`. -/
def bufferFromBase64 (s : JSString) : Option (List Nat) :=
  some (sextetsToBytes
    (((s.map (fun c => c % 256)).takeWhile (fun c => c != 61)).filterMap unbase64))

/-- Start of a multi-byte UTF-8 sequence: continuation bytes needed, bits of
the code point read so far, and the bounds of the next byte. -/
def utf8Lead (b : Nat) : Option (Nat × Nat × Nat × Nat) :=
  if 194 ≤ b ∧ b ≤ 223 then some (0, b % 32, 128, 191)
  else if 224 ≤ b ∧ b ≤ 239 then
    some (1, b % 16, if b = 224 then 160 else 128, if b = 237 then 159 else 191)
  else if 240 ≤ b ∧ b ≤ 244 then
    some (2, b % 8, if b = 240 then 144 else 128, if b = 244 then 143 else 191)
  else none

/-- UTF-8 decoding with replacement of every ill-formed subsequence by U+FFFD.
The state is `none` between characters and `some (n, cp, lo, hi)` inside one,
with `n + 1` continuation bytes still needed. The result is a list of code points. -/
def utf8Decode : List Nat → Option (Nat × Nat × Nat × Nat) → List Nat
  | [], none => []
  | [], some _ => [65533]
  | b :: bs, none =>
    if b < 128 then b :: utf8Decode bs none
    else match utf8Lead b with
      | some st => utf8Decode bs (some st)
      | none => 65533 :: utf8Decode bs none
  | b :: bs, some (n, cp, lo, hi) =>
    if lo ≤ b ∧ b ≤ hi then
      match n with
      | 0 => (cp * 64 + b % 64) :: utf8Decode bs none
      | k + 1 => utf8Decode bs (some (k, cp * 64 + b % 64, 128, 191))
    else if b < 128 then 65533 :: b :: utf8Decode bs none
    else match utf8Lead b with
      | some st => 65533 :: utf8Decode bs (some st)
      | none => 65533 :: 65533 :: utf8Decode bs none

/-- The call `buf.toString('utf8')`. -/
def bufferToString (bytes : List Nat) : JSString :=
  (utf8Decode bytes none).flatMap utf16Units

/-- UTF-8 bytes of one code point. -/
def utf8EncodePoint (c : Nat) : List Nat :=
  if c < 128 then [c]
  else if c < 2048 then [192 + c / 64, 128 + c % 64]
  else if c < 65536 then [224 + c / 4096, 128 + (c / 64) % 64, 128 + c % 64]
  else [240 + c / 262144, 128 + (c / 4096) % 64, 128 + (c / 64) % 64, 128 + c % 64]

/-- The call `Buffer.from(s)`: the UTF-8 bytes of the string. A surrogate pair
is one code point; a lone surrogate is encoded as U+FFFD. The first argument is
the pending high surrogate, if any. -/
def bufferFrom : Option Nat → JSString → List Nat
  | none, [] => []
  | some _, [] => [239, 191, 189]
  | none, c :: cs =>
    if 55296 ≤ c ∧ c ≤ 56319 then bufferFrom (some c) cs
    else if 56320 ≤ c ∧ c ≤ 57343 then [239, 191, 189] ++ bufferFrom none cs
    else utf8EncodePoint c ++ bufferFrom none cs
  | some hi, c :: cs =>
    if 56320 ≤ c ∧ c ≤ 57343 then
      utf8EncodePoint (65536 + (hi - 55296) * 1024 + (c - 56320)) ++ bufferFrom none cs
    else if 55296 ≤ c ∧ c ≤ 56319 then [239, 191, 189] ++ bufferFrom (some c) cs
    else [239, 191, 189] ++ utf8EncodePoint c ++ bufferFrom none cs

/-- A digit of the standard base64 alphabet. -/
def base64Digit (n : Nat) : Nat :=
  if n < 26 then 65 + n else if n < 52 then 71 + n else if n < 62 then n - 4
  else if n = 62 then 43 else 47

/-- The call `buf.toString('base64')`. -/
def bufferToBase64 : List Nat → JSString
  | a :: b :: c :: r =>
    base64Digit (a / 4) :: base64Digit ((a % 4) * 16 + b / 16) ::
      base64Digit ((b % 16) * 4 + c / 64) :: base64Digit (c % 64) :: bufferToBase64 r
  | [a, b] => [base64Digit (a / 4), base64Digit ((a % 4) * 16 + b / 16), base64Digit ((b % 16) * 4), 61]
  | [a] => [base64Digit (a / 4), base64Digit ((a % 4) * 16), 61, 61]
  | [] => []

/-! ## `decodeQuotedPrintable` -/

/-- The thirteen literal substitutions of lines 10-22, in source order: the
escaped sequence and the code unit that replaces it. -/
def symbolTable : List (JSString × Nat) :=
  [(js "=C2=A0", 160), (js "=C2=A9", 169), (js "=C2=AE", 174), (js "=C2=B0", 176),
   (js "=C2=A2", 162), (js "=C2=A3", 163), (js "=C2=A5", 165), (js "=C2=A7", 167),
   (js "=C2=B1", 177), (js "=C2=B6", 182), (js "=C2=B7", 183), (js "=C2=BB", 187),
   (js "=C2=AB", 171)]

/-- The function `decodeQuotedPrintable(text)`. -/
def decodeQuotedPrintable (text : JSString) : JSString :=
  let decoded := replaceAll softBreakAt 0 text
  let decoded := symbolTable.foldl (fun d e => replaceAll (literalAt e.1 [e.2]) 0 d) decoded
  replaceAll hexEscapeAt 0 decoded

/-! ## Headers -/

/-- The `headers` object: the own properties as key/value pairs, latest
assignment first. -/
abbrev Headers := List (JSString × JSString)

/-- The assignment `headers[key] = value`. Assigning a string to the key
`__proto__` of an object literal creates no property. -/
def setHeader (h : Headers) (key value : JSString) : Headers :=
  if key = js "__proto__" then h else (key, value) :: h

/-- The read `headers[key]`; `none` stands for `undefined`. -/
def getHeader (h : Headers) (key : JSString) : Option JSString := h.lookup key

/-- Lines 70-75 (and 156-161): a line with a colon at an index greater than 0
sets the header named by the text before the colon. -/
def addHeaderLine (h : Headers) (line : JSString) : Headers :=
  match indexOf line 58 with
  | some colonIndex =>
    if 0 < colonIndex then
      setHeader h (toLowerCase (trim (line.take colonIndex))) (trim (line.drop (colonIndex + 1)))
    else h
  | none => h

/-- The header loop of `parseMultipart` (lines 58-76) from line index `j` on:
the headers and `bodyStart`, with `none` for its initial value `-1`. -/
def partHeaders : List JSString → Nat → Headers → Headers × Option Nat
  | [], _, h => (h, none)
  | line :: rest, j, h =>
    if trim line = [] ∧ h = [] then partHeaders rest (j + 1) h
    else if trim line = [] then (h, some (j + 1))
    else partHeaders rest (j + 1) (addHeaderLine h line)

/-- The header loop of `parseEmail` (lines 150-162) from line index `i` on. -/
def emailHeaders : List JSString → Nat → Headers → Headers × Option Nat
  | [], _, h => (h, none)
  | line :: rest, i, h =>
    if trim line = [] then (h, some (i + 1))
    else emailHeaders rest (i + 1) (addHeaderLine h line)

/-- The decoding of a body by its transfer encoding (lines 87-97 and 196-207),
with the `try`/`catch` around the base64 decoding. -/
def decodeBody (transferEncoding body : JSString) : JSString :=
  if toLowerCase transferEncoding = js "quoted-printable" then decodeQuotedPrintable body
  else if toLowerCase transferEncoding = js "base64" then
    match bufferFromBase64 body with
    | some bytes => bufferToString bytes
    | none => body
  else body

/-! ## `parseMultipart` -/

/-- An attachment record (lines 131-136). -/
structure Attachment where
  filename : JSString
  contentType : JSString
  size : Nat
  content : JSString
  deriving DecidableEq, Repr

/-- The `results` object of `parseMultipart`. -/
structure Results where
  text : JSString
  html : JSString
  attachments : List Attachment
  deriving DecidableEq, Repr

/-- The headers and the body of one part (lines 53-83). -/
def partHeadersBody (part : JSString) : Headers × JSString :=
  let lines := splitLines part
  let hb := partHeaders lines 0 []
  let bodyStart := hb.2.getD lines.length
  (hb.1, if 0 < bodyStart then join (js "\n") (lines.drop bodyStart) else [])

/-- The condition of lines 115-119. -/
def isAttachmentPart (headers : Headers) (contentType : JSString) : Bool :=
  (getHeader headers (js "content-disposition")).any (fun d => includes d (js "attachment")) ||
  includes contentType (js "application/") || includes contentType (js "image/") ||
  includes contentType (js "video/") || includes contentType (js "audio/")

/-- The attachment record of lines 120-136. -/
def mkAttachment (headers : Headers) (contentType transferEncoding body decodedBody : JSString) :
    Attachment :=
  { filename :=
      ((getHeader headers (js "content-disposition")).bind (matchParam (js "filename"))).getD
        (js "attachment")
    contentType := orElse ((split contentType (js ";")).headD []) (js "application/octet-stream")
    size := decodedBody.length
    content :=
      if toLowerCase transferEncoding = js "base64" then body
      else bufferToBase64 (bufferFrom none decodedBody) }

/-- One iteration of the loop over the parts (lines 47-137); `recur` is the
recursive call of `parseMultipart`. -/
def processPart (recur : JSString → JSString → Option Results) (results : Results)
    (part : JSString) : Option Results :=
  if trim part = [] ∨ trim part = js "--" then some results
  else
    let hb := partHeadersBody part
    let headers := hb.1
    let body := hb.2
    let contentType := (getHeader headers (js "content-type")).getD []
    let transferEncoding := (getHeader headers (js "content-transfer-encoding")).getD []
    let decodedBody := decodeBody transferEncoding body
    if includes contentType (js "multipart") then
      let nestedBoundary := (matchParam (js "boundary") contentType).getD []
      if nestedBoundary ≠ [] then
        let nestedCleanBoundary := js "----" ++ nestedBoundary.drop 2
        match recur body nestedCleanBoundary with
        | some nestedResults =>
          some { text := orElse nestedResults.text results.text
                 html := orElse nestedResults.html results.html
                 attachments := results.attachments ++ nestedResults.attachments }
        | none => none
      else some results
    else if includes contentType (js "text/plain") then some { results with text := decodedBody }
    else if includes contentType (js "text/html") then some { results with html := decodedBody }
    else if isAttachmentPart headers contentType then
      some { results with
        attachments := results.attachments ++
          [mkAttachment headers contentType transferEncoding body decodedBody] }
    else some results

/-- The loop over the parts, from the left. -/
def processParts (recur : JSString → JSString → Option Results) :
    Results → List JSString → Option Results
  | results, [] => some results
  | results, part :: rest =>
    match processPart recur results part with
    | some r => processParts recur r rest
    | none => none

/-- The function `parseMultipart` with a budget for the depth of the recursion;
`none` when the budget is exhausted. -/
def parseMultipartFuel : Nat → JSString → JSString → Option Results
  | 0, _, _ => none
  | fuel + 1, content, boundary =>
    processParts (fun c b => parseMultipartFuel fuel c b)
      { text := [], html := [], attachments := [] } (split content boundary)

/-- The function `parseMultipart(content, boundary)`. Every nested call is on a
body shorter than the content, so a budget of `content.length + 1` is never
exhausted. -/
def parseMultipart (content boundary : JSString) : Option Results :=
  parseMultipartFuel (content.length + 1) content boundary

/-! ## `parseEmail` -/

/-- The arrow function mapped over the tokens by `parseAddresses` (lines 169-172). -/
def addressOf (addr : JSString) : JSString :=
  match firstMatch (delimAt (js "<") 62) addr with
  | some m => trim m
  | none =>
    match firstMatch bareAddrAt addr with
    | some m => trim m
    | none => trim addr

/-- The inner function `parseAddresses` (lines 167-173). -/
def parseAddresses (addrStr : JSString) : List JSString :=
  if addrStr = [] then [] else (split addrStr (js ",")).map addressOf

/-- The object returned by `parseEmail`, without its `date`. The fields
`from_` and `to_` are the properties `from` and `to`. -/
structure ParsedMessage where
  from_ : JSString
  to_ : List JSString
  subject : JSString
  text : JSString
  html : JSString
  attachments : List Attachment
  deriving DecidableEq, Repr

/-- The fields shared by both return statements of `parseEmail`. -/
def mkMessage (headers : Headers) (text html : JSString) (attachments : List Attachment) :
    ParsedMessage :=
  { from_ := orElse ((parseAddresses ((getHeader headers (js "from")).getD [])).headD [])
      (js "Unknown")
    to_ := parseAddresses ((getHeader headers (js "to")).getD [])
    subject := orElse ((getHeader headers (js "subject")).getD []) (js "No Subject")
    text := text
    html := html
    attachments := attachments }

/-- The headers and the body of the message (lines 145-164). -/
def emailHeadersBody (emlContent : JSString) : Headers × JSString :=
  let lines := split emlContent (js "\n")
  let hb := emailHeaders lines 0 []
  (hb.1, match hb.2 with
    | some bodyStart => if 0 < bodyStart then join (js "\n") (lines.drop bodyStart) else []
    | none => [])

/-- The single-part return statement (lines 195-217). -/
def singlePart (headers : Headers) (body : JSString) : ParsedMessage :=
  let transferEncoding := (getHeader headers (js "content-transfer-encoding")).getD []
  let decodedBody := decodeBody transferEncoding body
  let isHtml := (getHeader headers (js "content-type")).any (fun t => includes t (js "text/html"))
  mkMessage headers (if isHtml then [] else decodedBody) (if isHtml then decodedBody else []) []

/-- The function `parseEmail(emlContent)`. The result is `none` only if the
call of `parseMultipart` is. -/
def parseEmail (emlContent : JSString) : Option ParsedMessage :=
  let hb := emailHeadersBody emlContent
  let headers := hb.1
  let body := hb.2
  let contentType := (getHeader headers (js "content-type")).getD []
  if contentType ≠ [] ∧ includes contentType (js "multipart") then
    let boundary := (matchParam (js "boundary") contentType).getD []
    if boundary ≠ [] then
      let cleanBoundary := if startsWith boundary (js "--") then boundary else js "--" ++ boundary
      match parseMultipart body cleanBoundary with
      | some multipartResults =>
        some (mkMessage headers multipartResults.text multipartResults.html
          multipartResults.attachments)
      | none => none
    else some (singlePart headers body)
  else some (singlePart headers body)

/-! ## The HTTP service (lines 220-369)

The service is a function from the request and the store to the response and
the store. Route matching is the platform's: a route literal matches without
regard to ASCII case, a parameter is one non-empty segment, and one trailing
slash is allowed; the percent-decoding of parameters is left out. The value of
`generateEmailId()` is an input. Only the methods that have a route are
modelled, and the global middlewares `cors` and `express.json`, which neither
read nor write the store, are left out. -/

/-- The method `s.endsWith(suffix)`. -/
def endsWith (s suffix : JSString) : Bool := startsWith s.reverse suffix.reverse

/-- The request methods that have a route. -/
inductive Method where
  | get
  | post
  deriving DecidableEq, Repr

/-- A request: its method, `req.path`, `req.headers['authorization']`, and the
uploaded file of the form field `file` (its `originalname` and its bytes). -/
structure Request where
  method : Method
  path : JSString
  authorization : Option JSString
  file : Option (JSString × List Nat)
  deriving DecidableEq, Repr

/-- What the handlers take from their surroundings: the constant `API_TOKEN`
and the identifier that `generateEmailId()` returns during the request. -/
structure Env where
  apiToken : JSString
  emailId : JSString
  deriving DecidableEq, Repr

/-- The `emailData` object of lines 311-321, without its two dates. -/
structure EmailData where
  id : JSString
  from_ : JSString
  to_ : List JSString
  subject : JSString
  text : JSString
  html : JSString
  attachments : List Attachment
  deriving DecidableEq, Repr

/-- The map `emailStore`: its entries in insertion order. -/
abbrev EmailStore := List (JSString × EmailData)

/-- The call `emailStore.get(id)`. -/
def storeGet (store : EmailStore) (id : JSString) : Option EmailData := store.lookup id

/-- The call `emailStore.set(id, data)`: an existing key keeps its place. -/
def storeSet (store : EmailStore) (id : JSString) (data : EmailData) : EmailStore :=
  if store.any (fun p => p.1 == id) then store.map (fun p => if p.1 == id then (id, data) else p)
  else store ++ [(id, data)]

/-- Lines 326-329: above 100 entries the oldest key is deleted. -/
def storeEvict (store : EmailStore) : EmailStore :=
  if 100 < store.length then store.tail else store

/-- A response: the status code and what is sent. -/
inductive Response where
  /-- A call `res.status(status).json({ error: message, ... })`. -/
  | error (status : Nat) (message : JSString)
  /-- The success object of the upload route, status 200. -/
  | uploaded (emailId : JSString)
  /-- A call `res.status(404).send(message)` of the download route. -/
  | notFound (message : JSString)
  /-- The attachment bytes with their two headers, status 200. -/
  | attachment (contentType filename : JSString) (bytes : List Nat)
  /-- The viewer page of a stored message, status 200. -/
  | page (emailData : EmailData)
  /-- The page `Email Not Found` of the view route, status 404. -/
  | pageNotFound
  /-- The health object, status 200. -/
  | health
  /-- The documentation object of the root route, status 200. -/
  | documentation
  /-- The error of the upload middleware for a refused file, status 500. -/
  | uploadRefused
  /-- No route matches, status 404. -/
  | noRoute
  deriving DecidableEq, Repr

/-- The status code of a response. -/
def Response.status : Response → Nat
  | .error status _ => status
  | .uploaded _ => 200
  | .notFound _ => 404
  | .attachment _ _ _ => 200
  | .page _ => 200
  | .pageNotFound => 404
  | .health => 200
  | .documentation => 200
  | .uploadRefused => 500
  | .noRoute => 404

/-- The middleware `authenticateToken` (lines 242-266): `none` is the call
`next()`, `some` is the response that ends the request. -/
def authenticateToken (apiToken : JSString) (req : Request) : Option Response :=
  if req.path = js "/health" ∨ req.path = js "/" ∨ startsWith req.path (js "/view/") = true then
    none
  else
    let token : Option JSString :=
      match req.authorization with
      | some authHeader =>
        if authHeader = [] then some [] else (split authHeader (js " ")).get? 1
      | none => none
    match token with
    | none => some (Response.error 401 (js "Access denied. API token required."))
    | some t =>
      if t = [] then some (Response.error 401 (js "Access denied. API token required."))
      else if t ≠ apiToken then some (Response.error 403 (js "Invalid API token."))
      else none

/-- Value of a digit in the given radix (10 or 16). -/
def digitValue (radix c : Nat) : Option Nat :=
  if 48 ≤ c ∧ c ≤ 57 then some (c - 48)
  else if radix = 16 ∧ 97 ≤ c ∧ c ≤ 102 then some (c - 87)
  else if radix = 16 ∧ 65 ≤ c ∧ c ≤ 70 then some (c - 55)
  else none

/-- The value of the longest prefix of digits, `none` when it is empty. -/
def parseDigits (radix : Nat) (s : JSString) : Option Nat :=
  let digits := s.takeWhile (fun c => (digitValue radix c).isSome)
  if digits = [] then none
  else some (digits.foldl (fun n c => n * radix + (digitValue radix c).getD 0) 0)

/-- The call `parseInt(s)` as far as an array index needs it: the sign and the
magnitude, `none` for `NaN`. Leading white space is skipped, a sign is read, a
prefix `0x` or `0X` selects radix 16. -/
def parseInt (s : JSString) : Option (Bool × Nat) :=
  let s1 := trimStart s
  let negative := s1.head? = some 45
  let s2 := if s1.head? = some 45 ∨ s1.head? = some 43 then s1.tail else s1
  let hex := startsWith s2 (js "0x") || startsWith s2 (js "0X")
  match (if hex then parseDigits 16 (s2.drop 2) else parseDigits 10 s2) with
  | some n => some (decide negative, n)
  | none => none

/-- The read `attachments[parseInt(attachmentIndex)]`: `NaN` and the negative
numbers name no element, and `-0` names the first one. -/
def attachmentAt (attachments : List Attachment) (attachmentIndex : JSString) :
    Option Attachment :=
  match parseInt attachmentIndex with
  | some (negative, n) => if negative ∧ n ≠ 0 then none else attachments.get? n
  | none => none

/-- The segments of a path, without one trailing slash; `none` if the path
does not start with a slash. -/
def pathSegments (path : JSString) : Option (List JSString) :=
  match path with
  | 47 :: rest =>
    let segs := split rest (js "/")
    some (if segs.getLast? = some [] then segs.dropLast else segs)
  | _ => none

/-- The handler of `POST /upload` behind its two middlewares (lines 301-347). -/
def uploadRoute (env : Env) (req : Request) (store : EmailStore) : Response × EmailStore :=
  match authenticateToken env.apiToken req with
  | some rejection => (rejection, store)
  | none =>
    match req.file with
    | some (originalname, buffer) =>
      if endsWith originalname (js ".eml") then
        match parseEmail (bufferToString buffer) with
        | some parsedData =>
          let emailData : EmailData :=
            { id := env.emailId
              from_ := orElse parsedData.from_ (js "Unknown")
              to_ := parsedData.to_
              subject := orElse parsedData.subject (js "No Subject")
              text := parsedData.text
              html := parsedData.html
              attachments := parsedData.attachments }
          (Response.uploaded env.emailId, storeEvict (storeSet store env.emailId emailData))
        | none => (Response.error 500 (js "Failed to process email file"), store)
      else (Response.uploadRefused, store)
    | none => (Response.error 400 (js "No file provided"), store)

/-- The handler of `GET /download/:emailId/:attachmentIndex` (lines 351-369);
the route has no middleware of its own. -/
def downloadRoute (emailId attachmentIndex : JSString) (store : EmailStore) :
    Response × EmailStore :=
  match storeGet store emailId with
  | none => (Response.notFound (js "Email not found"), store)
  | some emailData =>
    match attachmentAt emailData.attachments attachmentIndex with
    | none => (Response.notFound (js "Attachment not found"), store)
    | some attachment =>
      (Response.attachment attachment.contentType attachment.filename
        ((bufferFromBase64 attachment.content).getD []), store)

/-- The handler of `GET /view/:id` (lines 372 and following). -/
def viewRoute (emailId : JSString) (store : EmailStore) : Response × EmailStore :=
  match storeGet store emailId with
  | none => (Response.pageNotFound, store)
  | some emailData => (Response.page emailData, store)

/-- The application: the routes in the order of their registration. -/
def handle (env : Env) (req : Request) (store : EmailStore) : Response × EmailStore :=
  match pathSegments req.path with
  | none => (Response.noRoute, store)
  | some segs =>
    match req.method, segs.map toLowerCase, segs with
    | Method.get, [l], _ =>
      if l = js "health" then (Response.health, store) else (Response.noRoute, store)
    | Method.post, [l], _ =>
      if l = js "upload" then uploadRoute env req store else (Response.noRoute, store)
    | Method.get, [l, _, _], [_, emailId, attachmentIndex] =>
      if l = js "download" ∧ emailId ≠ [] ∧ attachmentIndex ≠ [] then
        downloadRoute emailId attachmentIndex store
      else (Response.noRoute, store)
    | Method.get, [l, _], [_, emailId] =>
      if l = js "view" ∧ emailId ≠ [] then viewRoute emailId store
      else (Response.noRoute, store)
    | Method.get, [], _ => (Response.documentation, store)
    | _, _, _ => (Response.noRoute, store)

/-! ## Sample messages and predicates used in the statements -/

/-- A message with `depth + 1` levels of multipart nesting around one
`text/plain` part with body line `T`; level `k` declares the boundary `--`
followed by the `k`-th lower-case letter. -/
def deepBody : Nat → Nat → JSString
  | 0, k =>
    js "----" ++ [97 + k] ++ js "\nContent-Type: text/plain\n\nT\n----" ++ [97 + k] ++ js "--\n"
  | d + 1, k =>
    js "----" ++ [97 + k] ++ js "\nContent-Type: multipart/mixed; boundary=--" ++ [97 + k + 1] ++
      js "\n\n" ++ deepBody d (k + 1) ++ js "----" ++ [97 + k] ++ js "--\n"

/-- The message around `deepBody depth 0`. -/
def deepMessage (depth : Nat) : JSString :=
  js "Content-Type: multipart/mixed; boundary=--a\n\n" ++ deepBody depth 0


/-- The part is skipped by the test of line 49. -/
def isSkippedPart (part : JSString) : Bool :=
  decide (trim part = [] ∨ trim part = js "--")

/-- The `contentType` of a part (line 84). -/
def partContentType (part : JSString) : JSString :=
  (getHeader (partHeadersBody part).1 (js "content-type")).getD []

/-- The `decodedBody` of a part (lines 85-97). -/
def partDecodedBody (part : JSString) : JSString :=
  decodeBody ((getHeader (partHeadersBody part).1 (js "content-transfer-encoding")).getD [])
    (partHeadersBody part).2

/-- The part reaches the nested call or its guard (line 100). -/
def isMultipartPart (part : JSString) : Bool :=
  !isSkippedPart part && includes (partContentType part) (js "multipart")

/-- The part reaches the assignment to `results.text` (line 112). -/
def isTextPlainPart (part : JSString) : Bool :=
  !isSkippedPart part && !includes (partContentType part) (js "multipart") &&
    includes (partContentType part) (js "text/plain")

/-- The part reaches the assignment to `results.html` (line 114). -/
def isTextHtmlPart (part : JSString) : Bool :=
  !isSkippedPart part && !includes (partContentType part) (js "multipart") &&
    !includes (partContentType part) (js "text/plain") &&
    includes (partContentType part) (js "text/html")

/-- The top-level `content-type` of a message, `''` when absent. -/
def messageContentType (emlContent : JSString) : JSString :=
  (getHeader (emailHeadersBody emlContent).1 (js "content-type")).getD []

/-- The body of a message decoded by its top-level transfer encoding. -/
def messageDecodedBody (emlContent : JSString) : JSString :=
  decodeBody ((getHeader (emailHeadersBody emlContent).1 (js "content-transfer-encoding")).getD [])
    (emailHeadersBody emlContent).2

/-- The token has at position `i` a bracket pair `<x>` whose content `x` is not
empty and contains no `>`. -/
def IsBracketPair (tok : JSString) (i : Nat) (x : JSString) : Prop :=
  x ≠ [] ∧ 62 ∉ x ∧ ∃ post, tok.drop i = 60 :: (x ++ 62 :: post)

/-- A bare address `local@domain`: a non-empty run without `<` and white
space, an `@`, and a non-empty run without `>` and white space. -/
def IsBareAddress (a : JSString) : Prop :=
  ∃ l d, a = l ++ 64 :: d ∧ l ≠ [] ∧ d ≠ [] ∧
    (∀ c ∈ l, isLocalUnit c = true) ∧ (∀ c ∈ d, isDomainUnit c = true)

/-- The strings differ at a position that both have. -/
def mismatch : JSString → JSString → Bool
  | c :: cs, p :: ps => c != p || mismatch cs ps
  | _, _ => false

/-- No occurrence of `sep` can start inside `a`, whatever follows `a`: every
non-empty suffix of `a` differs from `sep` at a position that both have. -/
def noOcc (sep : JSString) : JSString → Bool
  | [] => true
  | c :: cs => mismatch (c :: cs) sep && noOcc sep cs

/-- A code unit of base64 text: a letter, a digit, `+`, `/`, the padding `=`,
or a line feed. -/
def isBase64Unit (c : Nat) : Bool :=
  (65 ≤ c && c ≤ 90) || (97 ≤ c && c ≤ 122) || (48 ≤ c && c ≤ 57) || c == 43 || c == 47 ||
    c == 61 || c == 10

/-- The two-part message of boundary `BOUND1`: a `text/plain` part with body
line `Hello` and an `application/pdf` part whose base64 body is `pdf`. -/
def twoPartMessage (pdf : JSString) : JSString :=
  js "Content-Type: multipart/mixed; boundary=\"BOUND1\"\n\n--BOUND1\nContent-Type: text/plain\n\nHello\n--BOUND1\nContent-Type: application/pdf\nContent-Transfer-Encoding: base64\n\n" ++ pdf ++ js "\n--BOUND1--\n"

/-- The upper-case hexadecimal digit of a value below 16. -/
def hexDigit (n : Nat) : Nat := if n < 10 then 48 + n else 55 + n

/-- The two upper-case hexadecimal digits of a byte value. -/
def hexByte (v : Nat) : JSString := [hexDigit (v / 16), hexDigit (v % 16)]

/-- A store with one message, `email_1`, that has one attachment. -/
def sampleStore : EmailStore :=
  [(js "email_1",
    { id := js "email_1", from_ := js "jane@example.com", to_ := [js "bob@example.org"],
      subject := js "Report", text := js "Hello\n", html := [],
      attachments := [{ filename := js "report.pdf", contentType := js "application/pdf",
                        size := 5, content := js "JVBERi0=" }] })]

/-- An environment with the secret `secret`. -/
def sampleEnv : Env := { apiToken := js "secret", emailId := js "email_2" }

/-! ## Lengths of the pieces of a split -/

theorem breakOn_length (sep : JSString) : ∀ (s a b : JSString),
    breakOn sep s = some (a, b) → a.length + b.length ≤ s.length := by
  intro s
  induction s with
  | nil => intro a b h; simp [breakOn] at h
  | cons c cs ih =>
    intro a b h
    unfold breakOn at h
    split at h
    · simp only [Option.some.injEq, Prod.mk.injEq] at h
      obtain ⟨rfl, rfl⟩ := h
      simp only [List.length_nil, List.length_drop, List.length_cons]
      omega
    · cases hb : breakOn sep cs with
      | none => simp [hb] at h
      | some ab =>
        obtain ⟨x, y⟩ := ab
        simp only [hb, Option.some.injEq, Prod.mk.injEq] at h
        obtain ⟨rfl, rfl⟩ := h
        have := ih x y hb
        simp only [List.length_cons]
        omega

theorem splitFuel_length_le (sep : JSString) : ∀ (n : Nat) (s p : JSString),
    p ∈ splitFuel sep n s → p.length ≤ s.length := by
  intro n
  induction n with
  | zero => intro s p h; simp [splitFuel] at h; simp [h]
  | succ n ih =>
    intro s p h
    unfold splitFuel at h
    cases hb : breakOn sep s with
    | none => simp [hb] at h; simp [h]
    | some ab =>
      obtain ⟨a, b⟩ := ab
      simp only [hb, List.mem_cons] at h
      have hl := breakOn_length sep s a b hb
      rcases h with rfl | h
      · omega
      · have := ih b p h
        omega

theorem split_length_le (s sep p : JSString) (h : p ∈ split s sep) : p.length ≤ s.length := by
  unfold split at h
  split at h
  · simp only [List.mem_map] at h
    obtain ⟨c, hc, rfl⟩ := h
    have : 0 < s.length := List.length_pos_of_mem hc
    simpa using this
  · exact splitFuel_length_le sep _ s p h

/-! ## Lengths of joined lines -/

theorem join_cons_length_ge (sep x : JSString) (r : List JSString) :
    x.length + (join sep r).length ≤ (join sep (x :: r)).length := by
  cases r with
  | nil => simp [join]
  | cons y r => simp [join]

theorem join_drop_length_le (sep : JSString) : ∀ (k : Nat) (ls : List JSString),
    (join sep (ls.drop k)).length ≤ (join sep ls).length := by
  intro k
  induction k with
  | zero => intro ls; simp
  | succ k ih =>
    intro ls
    cases ls with
    | nil => simp
    | cons x r =>
      have h1 := ih r
      have h2 := join_cons_length_ge sep x r
      simp only [List.drop_succ_cons]
      omega

theorem splitLines_ne_nil (s : JSString) : splitLines s ≠ [] := by
  induction s with
  | nil => simp [splitLines]
  | cons c cs ih =>
    unfold splitLines
    split
    · simp
    · split
      · exact ih
      · split <;> simp

theorem join_cons_cons (sep : JSString) (c : Nat) (l : JSString) (ls : List JSString) :
    join sep ((c :: l) :: ls) = c :: join sep (l :: ls) := by
  cases ls <;> simp [join]

theorem join_splitLines_length (s : JSString) : (join (js "\n") (splitLines s)).length ≤ s.length := by
  induction s with
  | nil => simp [splitLines, join]
  | cons c cs ih =>
    unfold splitLines
    split
    · cases h : splitLines cs with
      | nil => exact absurd h (splitLines_ne_nil cs)
      | cons y r =>
        rw [h] at ih
        have hj : (js "\n").length = 1 := by decide
        simp only [join, List.nil_append, List.length_append, List.length_cons, hj]
        omega
    · split
      · simp only [List.length_cons]; omega
      · cases h : splitLines cs with
        | nil => exact absurd h (splitLines_ne_nil cs)
        | cons y r =>
          rw [h] at ih
          simp only [join_cons_cons, List.length_cons]
          omega
/-! ## The body of a part is shorter than the part -/

theorem addHeaderLine_ne_nil (h : Headers) (line : JSString) (hh : addHeaderLine h line ≠ []) :
    h ≠ [] ∨ line ≠ [] := by
  cases line with
  | nil => left; simpa [addHeaderLine, indexOf] using hh
  | cons c cs => right; simp

theorem partHeaders_bodyStart : ∀ (rest : List JSString) (j : Nat) (h : Headers) (k : Nat),
    (partHeaders rest j h).2 = some k → j < k ∧ k ≤ j + rest.length := by
  intro rest
  induction rest with
  | nil => intro j h k hk; simp [partHeaders] at hk
  | cons line rest ih =>
    intro j h k hk
    unfold partHeaders at hk
    split at hk
    · have := ih (j + 1) h k hk
      simp only [List.length_cons]; omega
    · split at hk
      · simp only [Option.some.injEq] at hk
        simp only [List.length_cons]; omega
      · have := ih (j + 1) _ k hk
        simp only [List.length_cons]; omega

theorem partHeaders_body_lt (sep : JSString) : ∀ (rest : List JSString) (j : Nat) (h : Headers),
    (partHeaders rest j h).1 ≠ [] → h ≠ [] ∨
      (join sep (rest.drop ((partHeaders rest j h).2.getD (j + rest.length) - j))).length
        < (join sep rest).length := by
  intro rest
  induction rest with
  | nil => intro j h hne; left; simpa [partHeaders] using hne
  | cons line rest ih =>
    intro j h hne
    have hshift : ∀ h2 : Headers,
        (partHeaders rest (j + 1) h2).2.getD (j + (line :: rest).length) - j
          = ((partHeaders rest (j + 1) h2).2.getD (j + 1 + rest.length) - (j + 1)) + 1 := by
      intro h2
      cases hk : (partHeaders rest (j + 1) h2).2 with
      | none => simp only [Option.getD_none, List.length_cons]; omega
      | some k =>
        have := partHeaders_bodyStart rest (j + 1) h2 k hk
        simp only [Option.getD_some]; omega
    have hge := join_cons_length_ge sep line rest
    unfold partHeaders at hne ⊢
    split
    · rename_i hc
      rw [if_pos hc] at hne
      rcases ih (j + 1) h hne with h1 | h1
      · exact Or.inl h1
      · right
        rw [hshift h, List.drop_succ_cons]
        omega
    · rename_i hc
      rw [if_neg hc] at hne
      split
      · rename_i hc2
        rw [if_pos hc2] at hne
        exact Or.inl hne
      · rename_i hc2
        rw [if_neg hc2] at hne
        rcases ih (j + 1) _ hne with h1 | h1
        · rcases addHeaderLine_ne_nil h line h1 with h2 | h2
          · exact Or.inl h2
          · right
            rw [hshift, List.drop_succ_cons]
            have h3 := join_drop_length_le sep
              ((partHeaders rest (j + 1) (addHeaderLine h line)).2.getD (j + 1 + rest.length)
                - (j + 1)) rest
            have h4 : 0 < line.length := List.length_pos.mpr h2
            omega
        · right
          rw [hshift, List.drop_succ_cons]
          omega

theorem partHeadersBody_length_lt (part : JSString) (h : (partHeadersBody part).1 ≠ []) :
    (partHeadersBody part).2.length < part.length := by
  unfold partHeadersBody at h ⊢
  simp only at h ⊢
  have h1 := partHeaders_body_lt (js "\n") (splitLines part) 0 [] h
  have h2 := join_splitLines_length part
  simp only [ne_eq, not_true_eq_false, false_or, Nat.zero_add, Nat.sub_zero] at h1
  split
  · omega
  · simp only [List.length_nil]; omega

theorem getHeader_ne_nil (h : Headers) (key : JSString) (hk : (getHeader h key).getD [] ≠ []) :
    h ≠ [] := by
  rintro rfl
  simp [getHeader] at hk

theorem includes_nil_left (sub : JSString) (h : includes [] sub = true) : sub = [] := by
  simpa [includes] using h

/-! ## `parseMultipart` returns a result -/

theorem processPart_isSome (recur : JSString → JSString → Option Results) (results : Results)
    (part : JSString)
    (hrec : ∀ body b, body.length < part.length → (recur body b).isSome = true) :
    (processPart recur results part).isSome = true := by
  unfold processPart
  split
  · rfl
  · simp only
    split
    · rename_i hm
      split
      · have hct : (getHeader (partHeadersBody part).1 (js "content-type")).getD [] ≠ [] := by
          intro h0
          rw [h0] at hm
          have := includes_nil_left _ hm
          revert this
          decide
        have hlt := partHeadersBody_length_lt part (getHeader_ne_nil _ _ hct)
        have hs := hrec (partHeadersBody part).2
          (js "----" ++ ((matchParam (js "boundary")
            ((getHeader (partHeadersBody part).1 (js "content-type")).getD [])).getD []).drop 2) hlt
        cases hr : recur (partHeadersBody part).2
          (js "----" ++ ((matchParam (js "boundary")
            ((getHeader (partHeadersBody part).1 (js "content-type")).getD [])).getD []).drop 2) with
        | none => rw [hr] at hs; simp at hs
        | some r => rfl
      · rfl
    · split
      · rfl
      · split
        · rfl
        · split <;> rfl

theorem processParts_isSome (recur : JSString → JSString → Option Results) :
    ∀ (parts : List JSString) (results : Results),
    (∀ p ∈ parts, ∀ body b, body.length < p.length → (recur body b).isSome = true) →
    (processParts recur results parts).isSome = true := by
  intro parts
  induction parts with
  | nil => intro results _; rfl
  | cons p rest ih =>
    intro results h
    unfold processParts
    have hp := processPart_isSome recur results p (h p (List.mem_cons_self _ _))
    cases hr : processPart recur results p with
    | none => rw [hr] at hp; simp at hp
    | some r =>
      simp only
      exact ih r (fun q hq => h q (List.mem_cons_of_mem _ hq))

theorem parseMultipartFuel_isSome : ∀ (fuel : Nat) (content boundary : JSString),
    content.length < fuel → (parseMultipartFuel fuel content boundary).isSome = true := by
  intro fuel
  induction fuel with
  | zero => intro content boundary h; omega
  | succ fuel ih =>
    intro content boundary h
    unfold parseMultipartFuel
    apply processParts_isSome
    intro p hp body b hb
    have := split_length_le content boundary p hp
    exact ih body b (by omega)

theorem parseMultipart_isSome (content boundary : JSString) :
    (parseMultipart content boundary).isSome = true :=
  parseMultipartFuel_isSome _ content boundary (Nat.lt_succ_self _)
/-! ## Sibling parts -/

theorem processParts_append (recur : JSString → JSString → Option Results) :
    ∀ (a : List JSString) (r : Results) (b : List JSString),
    processParts recur r (a ++ b) =
      match processParts recur r a with
      | some r1 => processParts recur r1 b
      | none => none := by
  intro a
  induction a with
  | nil => intro r b; simp [processParts]
  | cons p a ih =>
    intro r b
    simp only [List.cons_append, processParts]
    cases processPart recur r p with
    | none => rfl
    | some r1 => exact ih r1 b

theorem processPart_textPlain (recur : JSString → JSString → Option Results) (r : Results)
    (p : JSString) (h : isTextPlainPart p = true) :
    processPart recur r p = some { r with text := partDecodedBody p } := by
  simp only [isTextPlainPart, isSkippedPart, partContentType, Bool.and_eq_true,
    Bool.not_eq_true', decide_eq_false_iff_not] at h
  obtain ⟨⟨h1, h2⟩, h3⟩ := h
  unfold processPart
  rw [if_neg h1]
  simp only [h2, h3, Bool.false_eq_true, if_false, if_true, partDecodedBody]

theorem processPart_textHtml (recur : JSString → JSString → Option Results) (r : Results)
    (p : JSString) (h : isTextHtmlPart p = true) :
    processPart recur r p = some { r with html := partDecodedBody p } := by
  simp only [isTextHtmlPart, isSkippedPart, partContentType, Bool.and_eq_true,
    Bool.not_eq_true', decide_eq_false_iff_not] at h
  obtain ⟨⟨⟨h1, h2⟩, h3⟩, h4⟩ := h
  unfold processPart
  rw [if_neg h1]
  simp only [h2, h3, h4, Bool.false_eq_true, if_false, if_true, partDecodedBody]

theorem processPart_text_kept (recur : JSString → JSString → Option Results) (r : Results)
    (q : JSString) (h1 : isTextPlainPart q = false) (h2 : isMultipartPart q = false) :
    ∃ r1, processPart recur r q = some r1 ∧ r1.text = r.text := by
  unfold processPart
  by_cases hs : trim q = [] ∨ trim q = js "--"
  · rw [if_pos hs]; exact ⟨r, rfl, rfl⟩
  · rw [if_neg hs]
    have hm : includes (partContentType q) (js "multipart") = false := by
      simpa [isMultipartPart, isSkippedPart, hs] using h2
    have ht : includes (partContentType q) (js "text/plain") = false := by
      simpa [isTextPlainPart, isSkippedPart, hs, hm] using h1
    simp only [partContentType] at hm ht
    simp only [hm, ht, Bool.false_eq_true, if_false]
    split
    · exact ⟨_, rfl, rfl⟩
    · split
      · exact ⟨_, rfl, rfl⟩
      · exact ⟨_, rfl, rfl⟩

theorem processPart_html_kept (recur : JSString → JSString → Option Results) (r : Results)
    (q : JSString) (h1 : isTextHtmlPart q = false) (h2 : isMultipartPart q = false) :
    ∃ r1, processPart recur r q = some r1 ∧ r1.html = r.html := by
  unfold processPart
  by_cases hs : trim q = [] ∨ trim q = js "--"
  · rw [if_pos hs]; exact ⟨r, rfl, rfl⟩
  · rw [if_neg hs]
    have hm : includes (partContentType q) (js "multipart") = false := by
      simpa [isMultipartPart, isSkippedPart, hs] using h2
    simp only [partContentType] at hm
    simp only [hm, Bool.false_eq_true, if_false]
    split
    · exact ⟨_, rfl, rfl⟩
    · rename_i ht
      have hh : includes (partContentType q) (js "text/html") = false := by
        simpa [isTextHtmlPart, isSkippedPart, hs, partContentType, hm, ht] using h1
      simp only [partContentType] at hh
      simp only [hh, Bool.false_eq_true, if_false]
      split
      · exact ⟨_, rfl, rfl⟩
      · exact ⟨_, rfl, rfl⟩

theorem processParts_text_kept (recur : JSString → JSString → Option Results) :
    ∀ (post : List JSString) (r : Results),
    (∀ q ∈ post, isTextPlainPart q = false ∧ isMultipartPart q = false) →
    ∃ r1, processParts recur r post = some r1 ∧ r1.text = r.text := by
  intro post
  induction post with
  | nil => intro r _; exact ⟨r, rfl, rfl⟩
  | cons q post ih =>
    intro r h
    obtain ⟨r1, e1, t1⟩ := processPart_text_kept recur r q (h q (List.mem_cons_self _ _)).1
      (h q (List.mem_cons_self _ _)).2
    obtain ⟨r2, e2, t2⟩ := ih r1 (fun x hx => h x (List.mem_cons_of_mem _ hx))
    exact ⟨r2, by simp only [processParts, e1, e2], t2.trans t1⟩

theorem processParts_html_kept (recur : JSString → JSString → Option Results) :
    ∀ (post : List JSString) (r : Results),
    (∀ q ∈ post, isTextHtmlPart q = false ∧ isMultipartPart q = false) →
    ∃ r1, processParts recur r post = some r1 ∧ r1.html = r.html := by
  intro post
  induction post with
  | nil => intro r _; exact ⟨r, rfl, rfl⟩
  | cons q post ih =>
    intro r h
    obtain ⟨r1, e1, t1⟩ := processPart_html_kept recur r q (h q (List.mem_cons_self _ _)).1
      (h q (List.mem_cons_self _ _)).2
    obtain ⟨r2, e2, t2⟩ := ih r1 (fun x hx => h x (List.mem_cons_of_mem _ hx))
    exact ⟨r2, by simp only [processParts, e1, e2], t2.trans t1⟩

/-- The parts before a given part of `content` are processed to a result. -/
theorem processParts_prefix_isSome (content boundary : JSString) (pre rest : List JSString)
    (hsplit : split content boundary = pre ++ rest) (r : Results) :
    ∃ r1, processParts (fun c b => parseMultipartFuel content.length c b) r pre = some r1 := by
  have h := processParts_isSome (fun c b => parseMultipartFuel content.length c b) pre r
    (by
      intro p hp body b hb
      have hmem : p ∈ split content boundary := by rw [hsplit]; exact List.mem_append_left _ hp
      have := split_length_le content boundary p hmem
      exact parseMultipartFuel_isSome _ body b (by omega))
  cases hr : processParts (fun c b => parseMultipartFuel content.length c b) r pre with
  | none => rw [hr] at h; simp at h
  | some r1 => exact ⟨r1, rfl⟩

/-- C2 (amended): among sibling parts the last one wins. If a part of the
split takes the `text/plain` branch and no later part takes that branch or the
multipart branch, `parseMultipart` returns a result whose text is the decoded
body of that part, whatever the parts before it are (an earlier `text/plain`
part is overwritten); the same holds for `text/html` parts and the html field. -/
theorem sibling_text_last_wins (content boundary : JSString) (pre post : List JSString)
    (p : JSString) (hsplit : split content boundary = pre ++ p :: post) :
    (isTextPlainPart p = true →
      (∀ q ∈ post, isTextPlainPart q = false ∧ isMultipartPart q = false) →
      ∃ r, parseMultipart content boundary = some r ∧ r.text = partDecodedBody p) ∧
    (isTextHtmlPart p = true →
      (∀ q ∈ post, isTextHtmlPart q = false ∧ isMultipartPart q = false) →
      ∃ r, parseMultipart content boundary = some r ∧ r.html = partDecodedBody p) := by
  obtain ⟨r1, e1⟩ := processParts_prefix_isSome content boundary pre (p :: post) hsplit
    { text := [], html := [], attachments := [] }
  constructor
  · intro hp hpost
    obtain ⟨r2, e2, t2⟩ := processParts_text_kept
      (fun c b => parseMultipartFuel content.length c b) post
      { r1 with text := partDecodedBody p } hpost
    refine ⟨r2, ?_, t2⟩
    simp only [parseMultipart, parseMultipartFuel, hsplit, processParts_append, e1, processParts,
      processPart_textPlain _ _ _ hp, e2]
  · intro hp hpost
    obtain ⟨r2, e2, t2⟩ := processParts_html_kept
      (fun c b => parseMultipartFuel content.length c b) post
      { r1 with html := partDecodedBody p } hpost
    refine ⟨r2, ?_, t2⟩
    simp only [parseMultipart, parseMultipartFuel, hsplit, processParts_append, e1, processParts,
      processPart_textHtml _ _ _ hp, e2]

/-- C2 (amended), at two sibling `text/plain` parts and at two sibling
`text/html` parts. -/
theorem sibling_text_last_wins_witness :
    ((∃ r, parseMultipart (js "--B\nContent-Type: text/plain\n\nfirst\n--B\nContent-Type: text/plain\n\nsecond\n--B--\n") (js "--B") = some r ∧
      r.text = partDecodedBody (js "\nContent-Type: text/plain\n\nsecond\n")) ∧
      partDecodedBody (js "\nContent-Type: text/plain\n\nsecond\n") = js "second\n") ∧
    ((∃ r, parseMultipart (js "--B\nContent-Type: text/html\n\n<p>1</p>\n--B\nContent-Type: text/html\n\n<p>2</p>\n--B--\n") (js "--B") = some r ∧
      r.html = partDecodedBody (js "\nContent-Type: text/html\n\n<p>2</p>\n")) ∧
      partDecodedBody (js "\nContent-Type: text/html\n\n<p>2</p>\n") = js "<p>2</p>\n") :=
  ⟨⟨(sibling_text_last_wins
      (js "--B\nContent-Type: text/plain\n\nfirst\n--B\nContent-Type: text/plain\n\nsecond\n--B--\n")
      (js "--B") [[], js "\nContent-Type: text/plain\n\nfirst\n"] [js "--\n"]
      (js "\nContent-Type: text/plain\n\nsecond\n") (by decide!)).1 (by decide!) (by decide!),
    by decide!⟩,
   ⟨(sibling_text_last_wins
      (js "--B\nContent-Type: text/html\n\n<p>1</p>\n--B\nContent-Type: text/html\n\n<p>2</p>\n--B--\n")
      (js "--B") [[], js "\nContent-Type: text/html\n\n<p>1</p>\n"] [js "--\n"]
      (js "\nContent-Type: text/html\n\n<p>2</p>\n") (by decide!)).2 (by decide!) (by decide!),
    by decide!⟩⟩
/-! ## The recursion budget of `parseEmail` -/

/-- In the model the recursion budget of `parseEmail` is never exhausted: the
result is never `none`. This is a fact about the budget, not about the call
stack of the runtime. -/
theorem parseEmail_budget_suffices (emlContent : JSString) :
    ∃ msg, parseEmail emlContent = some msg := by
  unfold parseEmail
  simp only
  split
  · split
    · have h := parseMultipart_isSome (emailHeadersBody emlContent).2
        (if startsWith ((matchParam (js "boundary")
            ((getHeader (emailHeadersBody emlContent).1 (js "content-type")).getD [])).getD [])
            (js "--") = true
          then (matchParam (js "boundary")
            ((getHeader (emailHeadersBody emlContent).1 (js "content-type")).getD [])).getD []
          else js "--" ++ (matchParam (js "boundary")
            ((getHeader (emailHeadersBody emlContent).1 (js "content-type")).getD [])).getD [])
      cases hr : parseMultipart (emailHeadersBody emlContent).2
        (if startsWith ((matchParam (js "boundary")
            ((getHeader (emailHeadersBody emlContent).1 (js "content-type")).getD [])).getD [])
            (js "--") = true
          then (matchParam (js "boundary")
            ((getHeader (emailHeadersBody emlContent).1 (js "content-type")).getD [])).getD []
          else js "--" ++ (matchParam (js "boundary")
            ((getHeader (emailHeadersBody emlContent).1 (js "content-type")).getD [])).getD []) with
      | none => rw [hr] at h; simp at h
      | some r => exact ⟨_, rfl⟩
    · exact ⟨_, rfl⟩
  · exact ⟨_, rfl⟩

/-! ## Multipart content type without a boundary -/

theorem startsWith_append_left : ∀ (t a b : JSString), startsWith t (a ++ b) = true →
    startsWith t a = true := by
  intro t
  induction t with
  | nil =>
    intro a b h
    cases a with
    | nil => rfl
    | cons p ps => simp [startsWith] at h
  | cons c cs ih =>
    intro a b h
    cases a with
    | nil => rfl
    | cons p ps =>
      simp only [List.cons_append, startsWith, Bool.and_eq_true] at h ⊢
      exact ⟨h.1, ih ps b h.2⟩

theorem startsWith_drop_of_not_includes : ∀ (s sub : JSString), includes s sub = false →
    ∀ j, startsWith (s.drop j) sub = false := by
  intro s
  induction s with
  | nil =>
    intro sub h j
    cases sub with
    | nil => simp [includes] at h
    | cons p ps => simp [startsWith]
  | cons c cs ih =>
    intro sub h j
    simp only [includes, Bool.or_eq_false_iff] at h
    cases j with
    | zero => exact h.1
    | succ j => exact ih sub h.2 j

theorem firstMatch_none_of_all (f : JSString → Option JSString) :
    ∀ (s : JSString), (∀ j, f (s.drop j) = none) → firstMatch f s = none := by
  intro s
  induction s with
  | nil => intro h; simpa [firstMatch] using h 0
  | cons c cs ih =>
    intro h
    have h0 := h 0
    simp only [List.drop_zero] at h0
    simp only [firstMatch, h0]
    exact ih (fun j => by simpa using h (j + 1))

theorem matchParam_none_of_not_includes (name v : JSString)
    (h : includes v (name ++ [61]) = false) : matchParam name v = none := by
  have hs := startsWith_drop_of_not_includes v _ h
  have h1 : firstMatch (delimAt (name ++ [61, 34]) 34) v = none := by
    apply firstMatch_none_of_all
    intro j
    have hj : startsWith (v.drop j) (name ++ [61, 34]) = false := by
      cases hc : startsWith (v.drop j) (name ++ [61, 34]) with
      | false => rfl
      | true =>
        have e : name ++ [61, 34] = (name ++ [61]) ++ [34] := by simp
        rw [e] at hc
        have := startsWith_append_left _ _ _ hc
        rw [hs j] at this
        exact absurd this (by simp)
    simp only [delimAt, hj, Bool.false_eq_true, if_false]
  have h2 : firstMatch (bareAt (name ++ [61])) v = none := by
    apply firstMatch_none_of_all
    intro j
    simp only [bareAt, hs j, Bool.false_eq_true, if_false]
  simp only [matchParam, h1, h2]

/-- C7 (amended): a message whose top-level content type contains `multipart`
but has no `boundary=` parameter, or none from which a boundary can be
extracted, is not failed and is handled as a single-part message: there is no
attachment, and the body decoded by the top-level transfer encoding is the html
field if the content type contains `text/html` and the text field otherwise,
the other of the two being empty. -/
theorem multipart_without_boundary_single_part (emlContent : JSString)
    (hct : includes (messageContentType emlContent) (js "multipart") = true)
    (hb : includes (messageContentType emlContent) (js "boundary=") = false ∨
      matchParam (js "boundary") (messageContentType emlContent) = none) :
    ∃ msg, parseEmail emlContent = some msg ∧ msg.attachments = [] ∧
      (if includes (messageContentType emlContent) (js "text/html") = true
        then msg.text = [] ∧ msg.html = messageDecodedBody emlContent
        else msg.text = messageDecodedBody emlContent ∧ msg.html = []) := by
  have hb2 : matchParam (js "boundary") (messageContentType emlContent) = none := by
    rcases hb with h | h
    · have e : js "boundary=" = js "boundary" ++ [61] := by decide
      rw [e] at h
      exact matchParam_none_of_not_includes _ _ h
    · exact h
  unfold messageContentType at hct hb2
  have hne : (getHeader (emailHeadersBody emlContent).1 (js "content-type")).getD [] ≠ [] := by
    intro h0
    rw [h0] at hct
    have := includes_nil_left _ hct
    revert this
    decide
  refine ⟨singlePart (emailHeadersBody emlContent).1 (emailHeadersBody emlContent).2, ?_, rfl, ?_⟩
  · unfold parseEmail
    simp only [hb2, hct, Option.getD_none, ne_eq, not_true_eq_false, if_false, ite_self]
  · unfold messageContentType messageDecodedBody singlePart mkMessage
    cases hg : getHeader (emailHeadersBody emlContent).1 (js "content-type") with
    | none => rw [hg] at hne; simp at hne
    | some t =>
      simp only [Option.getD_some, Option.any_some]
      split <;> simp

/-- C7 (amended), at a `multipart/mixed` message without boundary parameter. -/
theorem multipart_without_boundary_single_part_witness :
    ∃ msg, parseEmail (js "Content-Type: multipart/mixed\n\nhello") = some msg ∧
      msg.attachments = [] ∧
      (if includes (messageContentType (js "Content-Type: multipart/mixed\n\nhello"))
            (js "text/html") = true
        then msg.text = [] ∧
          msg.html = messageDecodedBody (js "Content-Type: multipart/mixed\n\nhello")
        else msg.text = messageDecodedBody (js "Content-Type: multipart/mixed\n\nhello") ∧
          msg.html = []) :=
  multipart_without_boundary_single_part (js "Content-Type: multipart/mixed\n\nhello")
    (by decide!) (Or.inl (by decide!))
/-! ## Address extraction -/

theorem firstMatch_of_first (f : JSString → Option JSString) (x : JSString) :
    ∀ (tok : JSString) (i : Nat), i ≤ tok.length → f (tok.drop i) = some x →
    (∀ j < i, f (tok.drop j) = none) → firstMatch f tok = some x := by
  intro tok
  induction tok with
  | nil =>
    intro i hi hx _
    have : i = 0 := by simpa using hi
    subst this
    simpa [firstMatch] using hx
  | cons c cs ih =>
    intro i hi hx hnone
    cases i with
    | zero => simp only [List.drop_zero] at hx; simp only [firstMatch, hx]
    | succ i =>
      have h0 := hnone 0 (Nat.succ_pos _)
      simp only [List.drop_zero] at h0
      simp only [firstMatch, h0]
      apply ih i (by simpa using hi) (by simpa using hx)
      intro j hj
      have := hnone (j + 1) (by omega)
      simpa using this

theorem firstMatch_some (f : JSString → Option JSString) (x : JSString) :
    ∀ (tok : JSString), firstMatch f tok = some x → ∃ j, f (tok.drop j) = some x := by
  intro tok
  induction tok with
  | nil => intro h; exact ⟨0, by simpa [firstMatch] using h⟩
  | cons c cs ih =>
    intro h
    unfold firstMatch at h
    cases hf : f (c :: cs) with
    | some m => rw [hf] at h; exact ⟨0, by simpa [hf] using h⟩
    | none =>
      rw [hf] at h
      obtain ⟨j, hj⟩ := ih h
      exact ⟨j + 1, by simpa using hj⟩

theorem takeWhile_stop (p : Nat → Bool) : ∀ (x : List Nat) (c : Nat) (post : List Nat),
    (∀ a ∈ x, p a = true) → p c = false → (x ++ c :: post).takeWhile p = x := by
  intro x
  induction x with
  | nil => intro c post _ hc; simp [List.takeWhile, hc]
  | cons a x ih =>
    intro c post hx hc
    have ha := hx a (List.mem_cons_self _ _)
    rw [List.cons_append, List.takeWhile_cons_of_pos ha,
      ih c post (fun b hb => hx b (List.mem_cons_of_mem _ hb)) hc]

theorem drop_length_takeWhile (p : Nat → Bool) : ∀ (l : List Nat),
    l.drop (l.takeWhile p).length = l.dropWhile p := by
  intro l
  induction l with
  | nil => rfl
  | cons a l ih =>
    by_cases ha : p a = true
    · simp [List.takeWhile, List.dropWhile, ha, ih]
    · simp [List.takeWhile, List.dropWhile, ha]

theorem startsWith_nil (s : JSString) : startsWith s [] = true := by
  cases s <;> rfl

theorem delimAt_bracket (x post : JSString) (hx : x ≠ []) (hgt : 62 ∉ x) :
    delimAt (js "<") 62 (60 :: (x ++ 62 :: post)) = some x := by
  have hlit : js "<" = [60] := by decide
  have hrun : (x ++ 62 :: post).takeWhile (fun c => c != 62) = x := by
    apply takeWhile_stop
    · intro a ha
      have : a ≠ 62 := fun h => hgt (h ▸ ha)
      simpa using this
    · simp
  unfold delimAt
  simp only [hlit, startsWith, startsWith_nil, beq_self_eq_true, Bool.and_self, if_true,
    List.length_singleton, List.drop_succ_cons, List.drop_zero, hrun]
  simp [hx, startsWith_nil]

theorem delimAt_bracket_inv (t y : JSString) (h : delimAt (js "<") 62 t = some y) :
    y ≠ [] ∧ 62 ∉ y ∧ ∃ post, t = 60 :: (y ++ 62 :: post) := by
  have hlit : js "<" = [60] := by decide
  unfold delimAt at h
  rw [hlit] at h
  cases t with
  | nil => simp [startsWith] at h
  | cons c rest =>
    by_cases hc : c = 60
    · subst hc
      simp only [startsWith, startsWith_nil, beq_self_eq_true, Bool.and_self, if_true,
        List.length_singleton, List.drop_succ_cons, List.drop_zero] at h
      split at h
      · rename_i hcond
        simp only [Option.some.injEq] at h
        obtain ⟨hne, hhead⟩ := hcond
        rw [h] at hne hhead
        refine ⟨hne, ?_, ?_⟩
        · intro hmem
          rw [← h] at hmem
          have := List.mem_takeWhile_imp hmem
          simp at this
        · have hd : rest.drop y.length = rest.dropWhile (fun c => c != 62) := by
            rw [← h]; exact drop_length_takeWhile _ rest
          have hsplit := List.takeWhile_append_dropWhile (fun c => c != 62) rest
          rw [h] at hsplit
          rw [hd] at hhead
          cases hdw : rest.dropWhile (fun c => c != 62) with
          | nil => rw [hdw] at hhead; simp at hhead
          | cons d post =>
            rw [hdw] at hhead hsplit
            simp only [List.head?_cons, Option.some.injEq] at hhead
            subst hhead
            exact ⟨post, by rw [hsplit]⟩
      · simp at h
    · have : (c == 60) = false := by simpa using hc
      simp [startsWith, this] at h

theorem firstMatch_bracket_of_pair (tok : JSString) (i : Nat) (x : JSString)
    (hp : IsBracketPair tok i x) (hfirst : ∀ j < i, ∀ y, ¬ IsBracketPair tok j y) :
    firstMatch (delimAt (js "<") 62) tok = some x := by
  obtain ⟨hx, hgt, post, hd⟩ := hp
  apply firstMatch_of_first _ x tok i
  · by_contra hlt
    have : tok.drop i = [] := List.drop_eq_nil_of_le (by omega)
    rw [this] at hd
    simp at hd
  · rw [hd]; exact delimAt_bracket x post hx hgt
  · intro j hj
    cases hm : delimAt (js "<") 62 (tok.drop j) with
    | none => rfl
    | some y =>
      obtain ⟨h1, h2, post2, h3⟩ := delimAt_bracket_inv _ y hm
      exact absurd ⟨h1, h2, post2, h3⟩ (hfirst j hj y)

theorem firstMatch_bracket_none (tok : JSString) (hno : ∀ j y, ¬ IsBracketPair tok j y) :
    firstMatch (delimAt (js "<") 62) tok = none := by
  apply firstMatch_none_of_all
  intro j
  cases hm : delimAt (js "<") 62 (tok.drop j) with
  | none => rfl
  | some y =>
    obtain ⟨h1, h2, post2, h3⟩ := delimAt_bracket_inv _ y hm
    exact absurd ⟨h1, h2, post2, h3⟩ (hno j y)

theorem take_takeWhile (p : Nat → Bool) : ∀ (t : List Nat) (q : Nat),
    q ≤ (t.takeWhile p).length → t.take q = (t.takeWhile p).take q := by
  intro t
  induction t with
  | nil => intro q _; simp
  | cons c cs ih =>
    intro q hq
    cases q with
    | zero => simp
    | succ q =>
      by_cases hc : p c = true
      · rw [List.takeWhile_cons_of_pos hc] at hq ⊢
        simp only [List.take_succ_cons, List.cons.injEq, true_and]
        exact ih q (by simpa using hq)
      · rw [List.takeWhile_cons_of_neg hc] at hq
        simp at hq

theorem bareAddrAt_isBareAddress (t a : JSString) (h : bareAddrAt t = some a) :
    IsBareAddress a := by
  unfold bareAddrAt at h
  simp only at h
  cases hf : (List.range (t.takeWhile isLocalUnit).length).reverse.find?
      (fun q => decide (0 < q) && t.get? q == some 64 && (t.get? (q + 1)).any isDomainUnit) with
  | none => rw [hf] at h; simp at h
  | some q =>
    rw [hf] at h
    simp only [Option.some.injEq] at h
    have hp := List.find?_some hf
    have hmem := List.mem_of_find?_eq_some hf
    simp only [List.mem_reverse, List.mem_range] at hmem
    simp only [Bool.and_eq_true, decide_eq_true_eq, beq_iff_eq] at hp
    obtain ⟨⟨hq0, hat⟩, hdom⟩ := hp
    have hlen : (t.takeWhile isLocalUnit).length ≤ t.length :=
      (List.takeWhile_prefix isLocalUnit).length_le
    have hqlt : q < t.length := by omega
    have hat2 : t[q]? = some 64 := by rw [← List.get?_eq_getElem?]; exact hat
    have htake : t.take (q + 1) = t.take q ++ [64] := by
      rw [List.take_succ, hat2]; rfl
    cases hd : t.drop (q + 1) with
    | nil =>
      have : t.get? (q + 1) = none := by
        rw [List.get?_eq_none]
        have := congrArg List.length hd
        simp only [List.length_drop, List.length_nil] at this
        omega
      rw [this] at hdom
      simp at hdom
    | cons z rest =>
      have hz : t.get? (q + 1) = some z := by
        have h0 : (t.drop (q + 1))[0]? = t[q + 1 + 0]? := List.getElem?_drop t (q + 1) 0
        rw [hd] at h0
        rw [List.get?_eq_getElem?]
        simpa using h0.symm
      rw [hz] at hdom
      simp only [Option.any_some] at hdom
      refine ⟨t.take q, (z :: rest).takeWhile isDomainUnit, ?_, ?_, ?_, ?_, ?_⟩
      · rw [← h, htake, hd]; simp
      · intro hnil
        have := congrArg List.length hnil
        simp only [List.length_take, List.length_nil] at this
        omega
      · rw [List.takeWhile_cons_of_pos hdom]; simp
      · intro c hc
        rw [take_takeWhile isLocalUnit t q (by omega)] at hc
        exact List.mem_takeWhile_imp (List.mem_of_mem_take hc)
      · intro c hc
        exact List.mem_takeWhile_imp hc

theorem trimStart_of_head (c : Nat) (r : JSString) (hc : isWhiteSpace c = false) :
    trimStart (c :: r) = c :: r := by
  unfold trimStart
  rw [List.dropWhile_cons_of_neg (by simp [hc])]

theorem isLocalUnit_not_white (c : Nat) (h : isLocalUnit c = true) : isWhiteSpace c = false := by
  unfold isLocalUnit at h
  simp only [Bool.and_eq_true, Bool.not_eq_true'] at h
  exact h.2

theorem isDomainUnit_not_white (c : Nat) (h : isDomainUnit c = true) : isWhiteSpace c = false := by
  unfold isDomainUnit at h
  simp only [Bool.and_eq_true, Bool.not_eq_true'] at h
  exact h.2

theorem trim_of_isBareAddress (a : JSString) (h : IsBareAddress a) : trim a = a := by
  obtain ⟨l, d, rfl, hl, hd, hlu, hdu⟩ := h
  cases l with
  | nil => exact absurd rfl hl
  | cons c l =>
    rcases List.eq_nil_or_concat d with hnil | ⟨d1, z, rfl⟩
    · exact absurd hnil hd
    · simp only [List.concat_eq_append] at hdu ⊢
      have hc := isLocalUnit_not_white c (hlu c (List.mem_cons_self _ _))
      have hz := isDomainUnit_not_white z (hdu z (by simp))
      unfold trim
      rw [List.cons_append, trimStart_of_head c _ hc]
      have hrev : (c :: (l ++ 64 :: (d1 ++ [z]))).reverse
          = z :: (c :: (l ++ 64 :: d1)).reverse := by
        simp
      rw [hrev, trimStart_of_head z _ hz, ← hrev, List.reverse_reverse]

theorem not_isBracketPair_of_get (tok : JSString) (j : Nat) (h : (tok.drop j).head? ≠ some 60)
    (y : JSString) : ¬ IsBracketPair tok j y := by
  rintro ⟨_, _, post, hd⟩
  rw [hd] at h
  exact h rfl

theorem not_isBracketPair_of_not_mem (tok : JSString) (h : 60 ∉ tok) (j : Nat) (y : JSString) :
    ¬ IsBracketPair tok j y := by
  rintro ⟨_, _, post, hd⟩
  have hmem : 60 ∈ tok.drop j := by rw [hd]; exact List.mem_cons_self _ _
  exact h (List.mem_of_mem_drop hmem)

/-- C10 (amended): `parseAddresses` on `Jane Doe <jane@example.com>,
bob@example.org` yields the two addresses; the empty header value yields the
empty sequence; a non-empty header value yields one entry per comma-separated
token, in order; the entry of a token is the trimmed content of its first
bracket pair with non-empty content, if it has one; otherwise the first match
of the bare `local@domain` pattern, which is a bare address; otherwise the
trimmed token. -/
theorem parseAddresses_entries :
    parseAddresses (js "Jane Doe <jane@example.com>, bob@example.org")
      = [js "jane@example.com", js "bob@example.org"] ∧
    parseAddresses [] = [] ∧
    (∀ s : JSString, s ≠ [] → parseAddresses s = (split s (js ",")).map addressOf) ∧
    (∀ (tok : JSString) (i : Nat) (x : JSString), IsBracketPair tok i x →
      (∀ j < i, ∀ y, ¬ IsBracketPair tok j y) → addressOf tok = trim x) ∧
    (∀ (tok a : JSString), (∀ j y, ¬ IsBracketPair tok j y) →
      firstMatch bareAddrAt tok = some a → addressOf tok = a ∧ IsBareAddress a) ∧
    (∀ tok : JSString, (∀ j y, ¬ IsBracketPair tok j y) →
      firstMatch bareAddrAt tok = none → addressOf tok = trim tok) := by
  refine ⟨by decide!, rfl, ?_, ?_, ?_, ?_⟩
  · intro s hs
    simp only [parseAddresses, if_neg hs]
  · intro tok i x hp hfirst
    simp only [addressOf, firstMatch_bracket_of_pair tok i x hp hfirst]
  · intro tok a hno hm
    obtain ⟨j, hj⟩ := firstMatch_some _ a tok hm
    have hb := bareAddrAt_isBareAddress _ a hj
    refine ⟨?_, hb⟩
    simp only [addressOf, firstMatch_bracket_none tok hno, hm, trim_of_isBareAddress a hb]
  · intro tok hno hm
    simp only [addressOf, firstMatch_bracket_none tok hno, hm]

/-- C10 (amended), at the tokens `Jane Doe <jane@example.com>` (bracket pair
at position 9), ` bob@example.org` (bare address), ` undisclosed ` (neither)
and at the header value `a,b`. -/
theorem parseAddresses_entries_witness :
    addressOf (js "Jane Doe <jane@example.com>") = trim (js "jane@example.com") ∧
    (addressOf (js " bob@example.org") = js "bob@example.org" ∧
      IsBareAddress (js "bob@example.org")) ∧
    addressOf (js " undisclosed ") = trim (js " undisclosed ") ∧
    parseAddresses (js "a,b") = (split (js "a,b") (js ",")).map addressOf :=
  ⟨parseAddresses_entries.2.2.2.1 (js "Jane Doe <jane@example.com>") 9 (js "jane@example.com")
      ⟨by decide, by decide, [], by decide!⟩
      (fun j hj y => not_isBracketPair_of_get _ j
        ((by decide! : ∀ k < 9, ((js "Jane Doe <jane@example.com>").drop k).head? ≠ some 60) j hj) y),
    parseAddresses_entries.2.2.2.2.1 (js " bob@example.org") (js "bob@example.org")
      (not_isBracketPair_of_not_mem _ (by decide)) (by decide!),
    parseAddresses_entries.2.2.2.2.2 (js " undisclosed ")
      (not_isBracketPair_of_not_mem _ (by decide)) (by decide!),
    parseAddresses_entries.2.2.1 (js "a,b") (by decide)⟩
/-! ## Splitting a text that was joined -/

theorem startsWith_eq : ∀ (s sep : JSString), startsWith s sep = true →
    s = sep ++ s.drop sep.length := by
  intro s
  induction s with
  | nil =>
    intro sep h
    cases sep with
    | nil => rfl
    | cons p ps => simp [startsWith] at h
  | cons c cs ih =>
    intro sep h
    cases sep with
    | nil => rfl
    | cons p ps =>
      simp only [startsWith, Bool.and_eq_true, beq_iff_eq] at h
      obtain ⟨rfl, h2⟩ := h
      have := ih ps h2
      simp only [List.length_cons, List.drop_succ_cons, List.cons_append, List.cons.injEq,
        true_and]
      exact this

theorem breakOn_eq (sep : JSString) : ∀ (s a b : JSString),
    breakOn sep s = some (a, b) → s = a ++ sep ++ b := by
  intro s
  induction s with
  | nil => intro a b h; simp [breakOn] at h
  | cons c cs ih =>
    intro a b h
    unfold breakOn at h
    split at h
    · rename_i hs
      simp only [Option.some.injEq, Prod.mk.injEq] at h
      obtain ⟨rfl, rfl⟩ := h
      simpa using startsWith_eq _ _ hs
    · cases hb : breakOn sep cs with
      | none => simp [hb] at h
      | some ab =>
        obtain ⟨x, y⟩ := ab
        simp only [hb, Option.some.injEq, Prod.mk.injEq] at h
        obtain ⟨rfl, rfl⟩ := h
        have := ih x y hb
        simp only [List.cons_append, List.cons.injEq, true_and]
        simpa using this

theorem breakOn_length_lt (sep : JSString) (hsep : sep ≠ []) (s a b : JSString)
    (h : breakOn sep s = some (a, b)) : b.length < s.length := by
  have := congrArg List.length (breakOn_eq sep s a b h)
  have hpos : 0 < sep.length := List.length_pos.mpr hsep
  simp only [List.length_append] at this
  omega

theorem splitFuel_stable (sep : JSString) (hsep : sep ≠ []) : ∀ (n m : Nat) (s : JSString),
    s.length ≤ n → s.length ≤ m → splitFuel sep n s = splitFuel sep m s := by
  intro n
  induction n with
  | zero =>
    intro m s hn _
    have hs : s = [] := List.length_eq_zero.mp (Nat.le_zero.mp hn)
    subst hs
    cases m <;> simp [splitFuel, breakOn]
  | succ n ih =>
    intro m s hn hm
    cases m with
    | zero =>
      have hs : s = [] := List.length_eq_zero.mp (Nat.le_zero.mp hm)
      subst hs
      simp [splitFuel, breakOn]
    | succ m =>
      unfold splitFuel
      cases hb : breakOn sep s with
      | none => rfl
      | some ab =>
        obtain ⟨a, b⟩ := ab
        have := breakOn_length_lt sep hsep s a b hb
        simp only
        rw [ih m b (by omega) (by omega)]

theorem split_of_breakOn (sep : JSString) (hsep : sep ≠ []) (s a b : JSString)
    (h : breakOn sep s = some (a, b)) : split s sep = a :: split b sep := by
  have hlt := breakOn_length_lt sep hsep s a b h
  unfold split
  rw [if_neg hsep, if_neg hsep]
  obtain ⟨k, hk⟩ : ∃ k, s.length = k + 1 := ⟨s.length - 1, by omega⟩
  rw [hk]
  simp only [splitFuel, h]
  rw [splitFuel_stable sep hsep k b.length b (by omega) (Nat.le_refl _)]

theorem split_of_breakOn_none (sep : JSString) (hsep : sep ≠ []) (s : JSString)
    (h : breakOn sep s = none) : split s sep = [s] := by
  unfold split
  rw [if_neg hsep]
  cases s.length with
  | zero => rfl
  | succ k => simp only [splitFuel, h]

theorem startsWith_append_self : ∀ (sep rest : JSString), startsWith (sep ++ rest) sep = true := by
  intro sep
  induction sep with
  | nil => intro rest; exact startsWith_nil _
  | cons p ps ih => intro rest; simp [startsWith, ih]

theorem breakOn_self (sep : JSString) (hsep : sep ≠ []) (rest : JSString) :
    breakOn sep (sep ++ rest) = some ([], rest) := by
  cases sep with
  | nil => exact absurd rfl hsep
  | cons p ps =>
    have h := startsWith_append_self (p :: ps) rest
    simp only [List.cons_append] at h ⊢
    unfold breakOn
    rw [if_pos h]
    simp

theorem startsWith_of_mismatch : ∀ (t sep rest : JSString), mismatch t sep = true →
    startsWith (t ++ rest) sep = false := by
  intro t
  induction t with
  | nil => intro sep rest h; simp [mismatch] at h
  | cons c cs ih =>
    intro sep rest h
    cases sep with
    | nil => simp [mismatch] at h
    | cons p ps =>
      simp only [mismatch, Bool.or_eq_true, bne_iff_ne, ne_eq] at h
      simp only [List.cons_append, startsWith]
      by_cases hc : c = p
      · subst hc
        rcases h with h | h
        · exact absurd rfl h
        · simp [ih ps rest h]
      · have : (c == p) = false := by simpa using hc
        simp [this]

theorem breakOn_append_noOcc (sep : JSString) : ∀ (a rest : JSString), noOcc sep a = true →
    breakOn sep (a ++ rest) =
      match breakOn sep rest with
      | some (x, y) => some (a ++ x, y)
      | none => none := by
  intro a
  induction a with
  | nil =>
    intro rest _
    simp only [List.nil_append]
    cases hb : breakOn sep rest with
    | none => rfl
    | some xy => rfl
  | cons c cs ih =>
    intro rest h
    simp only [noOcc, Bool.and_eq_true] at h
    have hs := startsWith_of_mismatch (c :: cs) sep rest h.1
    simp only [List.cons_append] at hs ⊢
    simp only [breakOn, hs, Bool.false_eq_true, if_false]
    rw [ih rest h.2]
    cases hb : breakOn sep rest with
    | none => rfl
    | some xy => rfl

theorem split_join (sep : JSString) (hsep : sep ≠ []) : ∀ (parts : List JSString),
    parts ≠ [] → (∀ p ∈ parts, noOcc sep p = true) → split (join sep parts) sep = parts := by
  intro parts
  induction parts with
  | nil => intro h _; exact absurd rfl h
  | cons x r ih =>
    intro _ hall
    have hx := hall x (List.mem_cons_self _ _)
    cases r with
    | nil =>
      have hb := breakOn_append_noOcc sep x [] hx
      simp only [List.append_nil, breakOn] at hb
      simp only [join]
      exact split_of_breakOn_none sep hsep x hb
    | cons y r =>
      have hb := breakOn_append_noOcc sep x (sep ++ join sep (y :: r)) hx
      rw [breakOn_self sep hsep] at hb
      simp only [List.append_nil] at hb
      simp only [join, List.append_assoc]
      rw [split_of_breakOn sep hsep _ _ _ hb,
        ih (by simp) (fun p hp => hall p (List.mem_cons_of_mem _ hp))]

theorem splitFuel_ne_nil (sep : JSString) (n : Nat) (s : JSString) : splitFuel sep n s ≠ [] := by
  cases n with
  | zero => simp [splitFuel]
  | succ n =>
    unfold splitFuel
    cases breakOn sep s with
    | none => simp
    | some ab => simp

theorem join_splitFuel (sep : JSString) : ∀ (n : Nat) (s : JSString),
    join sep (splitFuel sep n s) = s := by
  intro n
  induction n with
  | zero => intro s; rfl
  | succ n ih =>
    intro s
    unfold splitFuel
    cases hb : breakOn sep s with
    | none => rfl
    | some ab =>
      obtain ⟨a, b⟩ := ab
      simp only
      cases hr : splitFuel sep n b with
      | nil => exact absurd hr (splitFuel_ne_nil sep n b)
      | cons y r =>
        have := ih b
        rw [hr] at this
        simp only [join, this]
        exact (breakOn_eq sep s a b hb).symm

theorem join_split (sep : JSString) (hsep : sep ≠ []) (s : JSString) :
    join sep (split s sep) = s := by
  unfold split
  rw [if_neg hsep]
  exact join_splitFuel sep _ s
/-! ## The two-part message -/

theorem mismatch_append : ∀ (t sep b : JSString), mismatch t sep = true →
    mismatch (t ++ b) sep = true := by
  intro t
  induction t with
  | nil => intro sep b h; simp [mismatch] at h
  | cons c cs ih =>
    intro sep b h
    cases sep with
    | nil => simp [mismatch] at h
    | cons p ps =>
      simp only [mismatch, Bool.or_eq_true] at h
      simp only [List.cons_append, mismatch, Bool.or_eq_true]
      rcases h with h | h
      · exact Or.inl h
      · exact Or.inr (ih ps b h)

theorem noOcc_append (sep : JSString) : ∀ (a b : JSString), noOcc sep a = true →
    noOcc sep b = true → noOcc sep (a ++ b) = true := by
  intro a
  induction a with
  | nil => intro b _ hb; exact hb
  | cons c cs ih =>
    intro b ha hb
    simp only [noOcc, Bool.and_eq_true] at ha
    simp only [List.cons_append, noOcc, Bool.and_eq_true]
    exact ⟨mismatch_append (c :: cs) sep b ha.1, ih b ha.2 hb⟩

theorem noOcc_of_head (p : Nat) (ps : JSString) : ∀ (a : JSString), (∀ c ∈ a, c ≠ p) →
    noOcc (p :: ps) a = true := by
  intro a
  induction a with
  | nil => intro _; rfl
  | cons c cs ih =>
    intro h
    have hc := h c (List.mem_cons_self _ _)
    simp only [noOcc, mismatch, Bool.and_eq_true, Bool.or_eq_true, bne_iff_ne, ne_eq]
    exact ⟨Or.inl hc, ih (fun x hx => h x (List.mem_cons_of_mem _ hx))⟩

theorem splitLines_lf (s : JSString) : splitLines (10 :: s) = [] :: splitLines s := by
  rw [splitLines]; simp

theorem splitLines_other (c : Nat) (s l : JSString) (ls : List JSString) (h10 : c ≠ 10)
    (h13 : c ≠ 13) (hs : splitLines s = l :: ls) : splitLines (c :: s) = (c :: l) :: ls := by
  rw [splitLines, if_neg h10, if_neg (fun h => h13 h.1), hs]

theorem splitLines_append (x : JSString) : ∀ (a : JSString), 13 ∉ a →
    splitLines (a ++ 10 :: x) = splitLines a ++ splitLines x := by
  intro a
  induction a with
  | nil => intro _; rw [List.nil_append, splitLines_lf]; rfl
  | cons c cs ih =>
    intro h
    have hc : c ≠ 13 := fun e => h (e ▸ List.mem_cons_self _ _)
    have ih2 := ih (fun e => h (List.mem_cons_of_mem _ e))
    rw [List.cons_append]
    by_cases h10 : c = 10
    · subst h10
      rw [splitLines_lf, splitLines_lf, ih2, List.cons_append]
    · cases hs : splitLines cs with
      | nil => exact absurd hs (splitLines_ne_nil cs)
      | cons l ls =>
        rw [hs, List.cons_append] at ih2
        rw [splitLines_other c _ _ _ h10 hc ih2, splitLines_other c _ _ _ h10 hc hs,
          List.cons_append]

theorem join_splitLines (s : JSString) : 13 ∉ s → join (js "\n") (splitLines s) = s := by
  have hnl : js "\n" = [10] := by decide
  rw [hnl]
  induction s with
  | nil => intro _; rfl
  | cons c cs ih =>
    intro h
    have hc : c ≠ 13 := fun e => h (e ▸ List.mem_cons_self _ _)
    have ih2 := ih (fun e => h (List.mem_cons_of_mem _ e))
    cases hs : splitLines cs with
    | nil => exact absurd hs (splitLines_ne_nil cs)
    | cons l ls =>
      rw [hs] at ih2
      by_cases h10 : c = 10
      · subst h10
        rw [splitLines_lf, hs]
        simp only [join, ih2, List.nil_append, List.singleton_append]
      · rw [splitLines_other c _ _ _ h10 hc hs, join_cons_cons, ih2]

theorem partHeaders_append (tail : List JSString) : ∀ (pre : List JSString) (j : Nat)
    (h h2 : Headers) (k : Nat), partHeaders pre j h = (h2, some k) →
    partHeaders (pre ++ tail) j h = (h2, some k) := by
  intro pre
  induction pre with
  | nil => intro j h h2 k e; simp [partHeaders] at e
  | cons line rest ih =>
    intro j h h2 k e
    unfold partHeaders at e
    simp only [List.cons_append, partHeaders]
    split
    · rename_i hc
      rw [if_pos hc] at e
      exact ih _ _ _ _ e
    · rename_i hc
      rw [if_neg hc] at e
      split
      · rename_i hc2
        rw [if_pos hc2] at e
        exact e
      · rename_i hc2
        rw [if_neg hc2] at e
        exact ih _ _ _ _ e

theorem dropWhile_concat (p : Nat → Bool) (c : Nat) (hc : p c = false) : ∀ (l : List Nat),
    ∃ l2, (l ++ [c]).dropWhile p = l2 ++ [c] := by
  intro l
  induction l with
  | nil => exact ⟨[], by simp [List.dropWhile, hc]⟩
  | cons a l ih =>
    by_cases ha : p a = true
    · obtain ⟨l2, e⟩ := ih
      exact ⟨l2, by rw [List.cons_append, List.dropWhile_cons_of_pos ha, e]⟩
    · exact ⟨a :: l, by rw [List.cons_append, List.dropWhile_cons_of_neg ha]⟩

theorem trim_head (s : JSString) (c : Nat) (r : JSString) (hs : trimStart s = c :: r)
    (hc : isWhiteSpace c = false) : ∃ t, trim s = c :: t := by
  unfold trim
  rw [hs, List.reverse_cons]
  obtain ⟨l2, e⟩ := dropWhile_concat isWhiteSpace c hc r.reverse
  unfold trimStart
  rw [e]
  exact ⟨l2.reverse, by simp⟩

theorem processPart_skipped (recur : JSString → JSString → Option Results) (r : Results)
    (p : JSString) (h : isSkippedPart p = true) : processPart recur r p = some r := by
  unfold isSkippedPart at h
  simp only [decide_eq_true_eq] at h
  unfold processPart
  rw [if_pos h]

theorem isBase64Unit_ne (c : Nat) (h : isBase64Unit c = true) : c ≠ 45 ∧ c ≠ 13 := by
  constructor <;> (rintro rfl; revert h; decide)

theorem twoPartMessage_eq (pdf : JSString) :
    twoPartMessage pdf =
      js "Content-Type: multipart/mixed; boundary=\"BOUND1\"" ++ js "\n" ++ ([] ++ js "\n" ++
        join (js "--BOUND1")
          [[], js "\nContent-Type: text/plain\n\nHello\n",
           js "\nContent-Type: application/pdf\nContent-Transfer-Encoding: base64\n" ++
             10 :: (pdf ++ js "\n"),
           js "--\n"]) := by
  have e1 : js "Content-Type: multipart/mixed; boundary=\"BOUND1\"\n\n--BOUND1\nContent-Type: text/plain\n\nHello\n--BOUND1\nContent-Type: application/pdf\nContent-Transfer-Encoding: base64\n\n"
      = js "Content-Type: multipart/mixed; boundary=\"BOUND1\"" ++ js "\n" ++ ([] ++ js "\n" ++
          ([] ++ js "--BOUND1" ++ (js "\nContent-Type: text/plain\n\nHello\n" ++ js "--BOUND1" ++
            (js "\nContent-Type: application/pdf\nContent-Transfer-Encoding: base64\n" ++
              [10])))) := by
    decide!
  have e2 : js "\n--BOUND1--\n" = js "\n" ++ js "--BOUND1" ++ js "--\n" := by decide!
  unfold twoPartMessage
  rw [e1, e2]
  simp only [join, List.append_assoc, List.nil_append, List.cons_append, List.singleton_append]

theorem emailHeadersBody_of_first_line (line body : JSString)
    (hline : noOcc (js "\n") line = true) (htrim : trim line ≠ []) :
    emailHeadersBody (line ++ js "\n" ++ ([] ++ js "\n" ++ body))
      = (addHeaderLine [] line, body) := by
  have hsep : js "\n" ≠ [] := by decide
  have hb1 := breakOn_append_noOcc (js "\n") line (js "\n" ++ ([] ++ js "\n" ++ body)) hline
  rw [breakOn_self _ hsep] at hb1
  have hb2 := breakOn_append_noOcc (js "\n") [] (js "\n" ++ body) rfl
  rw [breakOn_self _ hsep] at hb2
  have hlines : split (line ++ js "\n" ++ ([] ++ js "\n" ++ body)) (js "\n")
      = line :: [] :: split body (js "\n") := by
    rw [List.append_assoc, split_of_breakOn _ hsep _ _ _ hb1, List.append_assoc,
      split_of_breakOn _ hsep _ _ _ hb2]
    simp
  have htrim0 : trim ([] : JSString) = [] := rfl
  unfold emailHeadersBody
  simp only [hlines, emailHeaders, if_neg htrim, htrim0, if_true, Nat.zero_add, Nat.reduceAdd,
    Nat.zero_lt_succ, List.drop_succ_cons, List.drop_zero, join_split _ hsep]

theorem processPart_pdf (recur : JSString → JSString → Option Results) (r : Results)
    (pdf : JSString) (hpdf : ∀ c ∈ pdf, isBase64Unit c = true) :
    processPart recur r
        (js "\nContent-Type: application/pdf\nContent-Transfer-Encoding: base64\n" ++
          10 :: (pdf ++ js "\n"))
      = some { r with attachments := r.attachments ++
          [{ filename := js "attachment", contentType := js "application/pdf",
             size := (decodeBody (js "base64") (pdf ++ js "\n")).length,
             content := pdf ++ js "\n" }] } := by
  have hcr : 13 ∉ pdf ++ js "\n" := by
    intro hmem
    rcases List.mem_append.mp hmem with h | h
    · exact (isBase64Unit_ne 13 (hpdf 13 h)).2 rfl
    · revert h; decide
  have hlines : splitLines
      (js "\nContent-Type: application/pdf\nContent-Transfer-Encoding: base64\n" ++
        10 :: (pdf ++ js "\n"))
      = [[], js "Content-Type: application/pdf", js "Content-Transfer-Encoding: base64", []]
          ++ splitLines (pdf ++ js "\n") := by
    rw [splitLines_append _ _ (by decide!)]
    congr 1
  have hhead : partHeaders
      [[], js "Content-Type: application/pdf", js "Content-Transfer-Encoding: base64", []] 0 []
      = ([(js "content-transfer-encoding", js "base64"),
          (js "content-type", js "application/pdf")], some 4) := by
    decide!
  have hhb : partHeadersBody
      (js "\nContent-Type: application/pdf\nContent-Transfer-Encoding: base64\n" ++
        10 :: (pdf ++ js "\n"))
      = ([(js "content-transfer-encoding", js "base64"),
          (js "content-type", js "application/pdf")], pdf ++ js "\n") := by
    unfold partHeadersBody
    simp only [hlines, partHeaders_append _ _ _ _ _ _ hhead, Option.getD_some, Nat.ofNat_pos,
      if_true]
    simp only [List.drop_append_eq_append_drop, List.length_cons, List.length_nil,
      List.drop_succ_cons, List.drop_nil, Nat.reduceAdd, Nat.sub_self, List.drop_zero,
      List.nil_append, join_splitLines _ hcr]
  have hskip : ¬ (trim (js "\nContent-Type: application/pdf\nContent-Transfer-Encoding: base64\n" ++
        10 :: (pdf ++ js "\n")) = [] ∨
      trim (js "\nContent-Type: application/pdf\nContent-Transfer-Encoding: base64\n" ++
        10 :: (pdf ++ js "\n")) = js "--") := by
    have hl : js "\nContent-Type: application/pdf\nContent-Transfer-Encoding: base64\n"
        = 10 :: 67 :: js "ontent-Type: application/pdf\nContent-Transfer-Encoding: base64\n" := by
      decide!
    obtain ⟨t, ht⟩ := trim_head
      (js "\nContent-Type: application/pdf\nContent-Transfer-Encoding: base64\n" ++
        10 :: (pdf ++ js "\n")) 67
      (js "ontent-Type: application/pdf\nContent-Transfer-Encoding: base64\n" ++
        10 :: (pdf ++ js "\n"))
      (by rw [hl]; rfl) (by decide)
    rw [ht]
    have hd : js "--" = [45, 45] := by decide
    rw [hd]
    simp
  unfold processPart
  rw [if_neg hskip]
  simp only [hhb]
  have h1 : (getHeader [(js "content-transfer-encoding", js "base64"),
      (js "content-type", js "application/pdf")] (js "content-type")).getD []
      = js "application/pdf" := by decide!
  have h2 : (getHeader [(js "content-transfer-encoding", js "base64"),
      (js "content-type", js "application/pdf")] (js "content-transfer-encoding")).getD []
      = js "base64" := by decide!
  have h3 : includes (js "application/pdf") (js "multipart") = false := by decide!
  have h4 : includes (js "application/pdf") (js "text/plain") = false := by decide!
  have h5 : includes (js "application/pdf") (js "text/html") = false := by decide!
  have h6 : isAttachmentPart [(js "content-transfer-encoding", js "base64"),
      (js "content-type", js "application/pdf")] (js "application/pdf") = true := by decide!
  have h7 : ((getHeader [(js "content-transfer-encoding", js "base64"),
      (js "content-type", js "application/pdf")] (js "content-disposition")).bind
        (matchParam (js "filename"))).getD (js "attachment") = js "attachment" := by decide!
  have h8 : orElse ((split (js "application/pdf") (js ";")).headD [])
      (js "application/octet-stream") = js "application/pdf" := by decide!
  have h9 : toLowerCase (js "base64") = js "base64" := by decide!
  simp only [h1, h2, h3, h4, h5, h6, Bool.false_eq_true, if_false, if_true, mkAttachment, h7, h8,
    h9]

theorem twoPart_noOcc (pdf : JSString) (hpdf : ∀ c ∈ pdf, isBase64Unit c = true) :
    ∀ p ∈ [[], js "\nContent-Type: text/plain\n\nHello\n",
      js "\nContent-Type: application/pdf\nContent-Transfer-Encoding: base64\n" ++
        10 :: (pdf ++ js "\n"), js "--\n"], noOcc (js "--BOUND1") p = true := by
  intro p hp
  simp only [List.mem_cons, List.mem_singleton, List.not_mem_nil, or_false] at hp
  rcases hp with rfl | rfl | rfl | rfl
  · rfl
  · decide!
  · apply noOcc_append _ _ _ (by decide!)
    have hd : js "--BOUND1" = 45 :: js "-BOUND1" := by decide
    rewrite [hd]
    apply noOcc_of_head
    intro c hc
    simp only [List.mem_cons, List.mem_append] at hc
    rcases hc with rfl | h | h
    · decide
    · exact (isBase64Unit_ne c (hpdf c h)).1
    · intro e; subst e; revert h; decide
  · decide!

theorem twoPart_parseMultipart (pdf : JSString) (hpdf : ∀ c ∈ pdf, isBase64Unit c = true) :
    parseMultipart
      (join (js "--BOUND1")
        [[], js "\nContent-Type: text/plain\n\nHello\n",
         js "\nContent-Type: application/pdf\nContent-Transfer-Encoding: base64\n" ++
           10 :: (pdf ++ js "\n"),
         js "--\n"]) (js "--BOUND1")
      = some { text := js "Hello\n", html := [],
               attachments := [{ filename := js "attachment",
                                 contentType := js "application/pdf",
                                 size := (decodeBody (js "base64") (pdf ++ js "\n")).length,
                                 content := pdf ++ js "\n" }] } := by
  have hsep : js "--BOUND1" ≠ [] := by decide
  have hb : partDecodedBody (js "\nContent-Type: text/plain\n\nHello\n") = js "Hello\n" := by
    decide!
  have hs1 : isSkippedPart [] = true := by decide
  have hs2 : isSkippedPart (js "--\n") = true := by decide!
  have ht : isTextPlainPart (js "\nContent-Type: text/plain\n\nHello\n") = true := by decide!
  unfold parseMultipart
  rewrite [parseMultipartFuel, split_join _ hsep _ (List.cons_ne_nil _ _) (twoPart_noOcc pdf hpdf)]
  rewrite [processParts, processPart_skipped _ _ [] hs1]
  simp only
  rewrite [processParts, processPart_textPlain _ _ _ ht]
  simp only
  rewrite [processParts, processPart_pdf _ _ pdf hpdf]
  simp only
  rewrite [processParts, processPart_skipped _ _ (js "--\n") hs2]
  simp only [processParts, hb, List.nil_append]

theorem twoPart_headersBody (body : JSString) :
    emailHeadersBody (js "Content-Type: multipart/mixed; boundary=\"BOUND1\"" ++ js "\n" ++
        ([] ++ js "\n" ++ body))
      = ([(js "content-type", js "multipart/mixed; boundary=\"BOUND1\"")], body) := by
  have hhdr : addHeaderLine [] (js "Content-Type: multipart/mixed; boundary=\"BOUND1\"")
      = [(js "content-type", js "multipart/mixed; boundary=\"BOUND1\"")] := by decide!
  have hfirst := emailHeadersBody_of_first_line
    (js "Content-Type: multipart/mixed; boundary=\"BOUND1\"") body (by decide!) (by decide!)
  rewrite [hhdr] at hfirst
  exact hfirst

theorem parseEmail_multipart (emlContent : JSString) (headers : Headers)
    (body contentType boundary cleanBoundary : JSString) (r : Results)
    (hhb : emailHeadersBody emlContent = (headers, body))
    (hct : (getHeader headers (js "content-type")).getD [] = contentType)
    (hne : contentType ≠ []) (hinc : includes contentType (js "multipart") = true)
    (hb : (matchParam (js "boundary") contentType).getD [] = boundary) (hbne : boundary ≠ [])
    (hclean : (if startsWith boundary (js "--") = true then boundary else js "--" ++ boundary)
      = cleanBoundary)
    (hmp : parseMultipart body cleanBoundary = some r) :
    parseEmail emlContent = some (mkMessage headers r.text r.html r.attachments) := by
  subst hct hb hclean
  unfold parseEmail
  simp only [hhb, ne_eq, hne, not_false_eq_true, hinc, and_self, if_true, hbne, hmp]

/-- C3 (amended): for every base64 text `pdf` (letters, digits, `+`, `/`, `=`
and line feeds), the two-part `BOUND1` message with a `text/plain` part of body
line `Hello` and an `application/pdf` part of base64 body `pdf` is parsed to
text = `Hello` followed by a line feed, html empty, and exactly one attachment,
whose content type is `application/pdf`, whose filename is `attachment` and
whose content is the base64 body followed by a line feed. -/
theorem two_part_message (pdf : JSString) (hpdf : ∀ c ∈ pdf, isBase64Unit c = true) :
    ∃ size : Nat, parseEmail (twoPartMessage pdf)
      = some { from_ := js "Unknown", to_ := [], subject := js "No Subject",
               text := js "Hello\n", html := [],
               attachments := [{ filename := js "attachment", contentType := js "application/pdf",
                                 size := size, content := pdf ++ js "\n" }] } := by
  refine ⟨(decodeBody (js "base64") (pdf ++ js "\n")).length, ?_⟩
  rewrite [twoPartMessage_eq]
  exact parseEmail_multipart _ _ _ (js "multipart/mixed; boundary=\"BOUND1\"") (js "BOUND1")
    (js "--BOUND1") _ (twoPart_headersBody _) (by decide!) (by decide) (by decide!) (by decide!)
    (by decide) (by decide) (twoPart_parseMultipart pdf hpdf)

/-- C3 (amended), at the base64 body `JVBERi0=`. -/
theorem two_part_message_witness :
    ∃ size : Nat, parseEmail (twoPartMessage (js "JVBERi0="))
      = some { from_ := js "Unknown", to_ := [], subject := js "No Subject",
               text := js "Hello\n", html := [],
               attachments := [{ filename := js "attachment", contentType := js "application/pdf",
                                 size := size, content := js "JVBERi0=" ++ js "\n" }] } :=
  two_part_message (js "JVBERi0=") (by decide)
/-! ## Quoted-printable decoding -/

theorem replaceAll_append_of_no_equals (m : JSString → Option (Nat × JSString))
    (hm : ∀ c cs, c ≠ 61 → m (c :: cs) = none) (rest : JSString) :
    ∀ a : JSString, 61 ∉ a → replaceAll m 0 (a ++ rest) = a ++ replaceAll m 0 rest := by
  intro a
  induction a with
  | nil => intro _; rfl
  | cons c cs ih =>
    intro h
    have hc : c ≠ 61 := fun e => h (e ▸ List.mem_cons_self _ _)
    have ih2 := ih (fun e => h (List.mem_cons_of_mem _ e))
    rw [List.cons_append, replaceAll, hm c _ hc]
    simp only [ih2, List.cons_append]

theorem replaceAll_of_no_equals (m : JSString → Option (Nat × JSString))
    (hm : ∀ c cs, c ≠ 61 → m (c :: cs) = none) (s : JSString) (h : 61 ∉ s) :
    replaceAll m 0 s = s := by
  have := replaceAll_append_of_no_equals m hm [] s h
  simpa [replaceAll] using this

theorem softBreakAt_none (c : Nat) (cs : JSString) (hc : c ≠ 61) : softBreakAt (c :: cs) = none := by
  have : (c == 61) = false := by simpa using hc
  simp [softBreakAt, startsWith, this]

theorem literalAt_none (pat rep : JSString) (hp : pat.head? = some 61) (c : Nat) (cs : JSString)
    (hc : c ≠ 61) : literalAt pat rep (c :: cs) = none := by
  cases pat with
  | nil => simp at hp
  | cons p ps =>
    simp only [List.head?_cons, Option.some.injEq] at hp
    subst hp
    have : (c == 61) = false := by simpa using hc
    simp [literalAt, startsWith, this]

theorem hexEscapeAt_none (c : Nat) (cs : JSString) (hc : c ≠ 61) : hexEscapeAt (c :: cs) = none := by
  unfold hexEscapeAt
  split
  · rename_i heq
    simp only [List.cons.injEq] at heq
    exact absurd heq.1 hc
  · rfl

theorem symbolTable_head : ∀ e ∈ symbolTable, e.1.head? = some 61 := by
  decide

theorem foldl_literal_of_no_equals (table : List (JSString × Nat))
    (ht : ∀ e ∈ table, e.1.head? = some 61) (s : JSString) (h : 61 ∉ s) :
    table.foldl (fun d e => replaceAll (literalAt e.1 [e.2]) 0 d) s = s := by
  induction table with
  | nil => rfl
  | cons e table ih =>
    simp only [List.foldl_cons]
    rw [replaceAll_of_no_equals _
      (literalAt_none e.1 [e.2] (ht e (List.mem_cons_self _ _))) s h]
    exact ih (fun x hx => ht x (List.mem_cons_of_mem _ hx))

theorem decodeQuotedPrintable_of_no_equals (s : JSString) (h : 61 ∉ s) :
    decodeQuotedPrintable s = s := by
  unfold decodeQuotedPrintable
  simp only
  rw [replaceAll_of_no_equals _ softBreakAt_none s h,
    foldl_literal_of_no_equals symbolTable symbolTable_head s h,
    replaceAll_of_no_equals _ hexEscapeAt_none s h]

theorem removeSoftBreak_crlf (a b : JSString) (ha : 61 ∉ a) (hb : 61 ∉ b) :
    replaceAll softBreakAt 0 (a ++ js "=\r\n" ++ b) = a ++ b := by
  have e : js "=\r\n" = [61, 13, 10] := by decide
  rw [e, List.append_assoc, replaceAll_append_of_no_equals _ softBreakAt_none _ a ha]
  have h1 : softBreakAt ([61, 13, 10] ++ b) = some (3, []) := by
    simp [softBreakAt, startsWith, startsWith_nil]
  simp only [List.cons_append, List.nil_append] at h1 ⊢
  simp only [replaceAll, h1, List.nil_append, Nat.add_one_sub_one]
  rw [replaceAll_of_no_equals _ softBreakAt_none b hb]

theorem removeSoftBreak_lf (a b : JSString) (ha : 61 ∉ a) (hb : 61 ∉ b) :
    replaceAll softBreakAt 0 (a ++ js "=\n" ++ b) = a ++ b := by
  have e : js "=\n" = [61, 10] := by decide
  rw [e, List.append_assoc, replaceAll_append_of_no_equals _ softBreakAt_none _ a ha]
  have h1 : softBreakAt ([61, 10] ++ b) = some (2, []) := by
    simp [softBreakAt, startsWith, startsWith_nil]
  simp only [List.cons_append, List.nil_append] at h1 ⊢
  simp only [replaceAll, h1, List.nil_append, Nat.add_one_sub_one]
  rw [replaceAll_of_no_equals _ softBreakAt_none b hb]

theorem decodeQuotedPrintable_after_softBreaks (s t : JSString)
    (hs : replaceAll softBreakAt 0 s = t) (ht : 61 ∉ t) : decodeQuotedPrintable s = t := by
  unfold decodeQuotedPrintable
  simp only
  rw [hs, foldl_literal_of_no_equals symbolTable symbolTable_head t ht,
    replaceAll_of_no_equals _ hexEscapeAt_none t ht]

/-- C12: `decodeQuotedPrintable` removes a soft line break and inserts nothing:
`text=\r\npart2` decodes to `textpart2`, and for all strings `a` and `b`
without `=`, both `a ++ "=\r\n" ++ b` and `a ++ "=\n" ++ b` decode to `a ++ b`. -/
theorem decodeQuotedPrintable_soft_break :
    decodeQuotedPrintable (js "text=\r\npart2") = js "textpart2" ∧
    ∀ a b : JSString, 61 ∉ a → 61 ∉ b →
      decodeQuotedPrintable (a ++ js "=\r\n" ++ b) = a ++ b ∧
      decodeQuotedPrintable (a ++ js "=\n" ++ b) = a ++ b := by
  refine ⟨by decide!, ?_⟩
  intro a b ha hb
  have hab : 61 ∉ a ++ b := by
    intro h
    rcases List.mem_append.mp h with h | h
    · exact ha h
    · exact hb h
  exact ⟨decodeQuotedPrintable_after_softBreaks _ _ (removeSoftBreak_crlf a b ha hb) hab,
    decodeQuotedPrintable_after_softBreaks _ _ (removeSoftBreak_lf a b ha hb) hab⟩

/-- C12, at `a` = `Dear Jane, thank you for` and `b` = ` your message`. -/
theorem decodeQuotedPrintable_soft_break_witness :
    decodeQuotedPrintable (js "Dear Jane, thank you for" ++ js "=\r\n" ++ js " your message")
      = js "Dear Jane, thank you for" ++ js " your message" ∧
    decodeQuotedPrintable (js "Dear Jane, thank you for" ++ js "=\n" ++ js " your message")
      = js "Dear Jane, thank you for" ++ js " your message" :=
  decodeQuotedPrintable_soft_break.2 (js "Dear Jane, thank you for") (js " your message")
    (by decide) (by decide)

/-- C11 (amended): `=C2=A9` decodes to the one code unit U+00A9 and `=41` to
`A`; for every byte value `v`, the escape `=` followed by the two upper-case
hexadecimal digits of `v` (digits `0`-`9` and `A`-`F`) decodes to the one code
unit `v`, except that it decodes to the empty string when `v` is 0xC2 or 0xC3;
and each of the thirteen table sequences `=C2=YY` decodes to the one code unit
`YY`. -/
theorem decodeQuotedPrintable_escapes :
    decodeQuotedPrintable (js "=C2=A9") = [169] ∧
    decodeQuotedPrintable (js "=41") = js "A" ∧
    (∀ v < 256, decodeQuotedPrintable (61 :: hexByte v)
      = if v = 194 ∨ v = 195 then [] else [v]) ∧
    (∀ y ∈ [160, 169, 174, 176, 162, 163, 165, 167, 177, 182, 183, 187, 171],
      decodeQuotedPrintable (js "=C2" ++ 61 :: hexByte y) = [y]) := by
  decide!

/-- C11 (amended), at the byte values 0x41 and 0xC3 and at the table sequence `=C2=AE`. -/
theorem decodeQuotedPrintable_escapes_witness :
    decodeQuotedPrintable (61 :: hexByte 65) = [65] ∧
    decodeQuotedPrintable (61 :: hexByte 195) = [] ∧
    decodeQuotedPrintable (js "=C2" ++ 61 :: hexByte 174) = [174] ∧
    61 :: hexByte 65 = js "=41" ∧ js "=C2" ++ 61 :: hexByte 174 = js "=C2=AE" :=
  ⟨by simpa using decodeQuotedPrintable_escapes.2.2.1 65 (by decide),
   by simpa using decodeQuotedPrintable_escapes.2.2.1 195 (by decide),
   decodeQuotedPrintable_escapes.2.2.2 174 (by decide), by decide, by decide⟩
/-! ## Termination of `parseMultipart` -/

theorem processPart_mono (rec1 rec2 : JSString → JSString → Option Results)
    (h : ∀ c b r, rec1 c b = some r → rec2 c b = some r) (results : Results) (part : JSString)
    (r : Results) (h1 : processPart rec1 results part = some r) :
    processPart rec2 results part = some r := by
  unfold processPart at h1 ⊢
  split
  · rename_i hs
    rw [if_pos hs] at h1
    exact h1
  · rename_i hs
    rw [if_neg hs] at h1
    simp only at h1 ⊢
    split
    · rename_i hm
      rw [if_pos hm] at h1
      split
      · rename_i hb
        rw [if_pos hb] at h1
        cases hr : rec1 (partHeadersBody part).2
            (js "----" ++ ((matchParam (js "boundary")
              ((getHeader (partHeadersBody part).1 (js "content-type")).getD [])).getD []).drop 2)
          with
        | none => rw [hr] at h1; simp at h1
        | some nested =>
          rw [hr] at h1
          rw [h _ _ _ hr]
          exact h1
      · rename_i hb
        rw [if_neg hb] at h1
        exact h1
    · rename_i hm
      rw [if_neg hm] at h1
      exact h1

theorem processParts_mono (rec1 rec2 : JSString → JSString → Option Results)
    (h : ∀ c b r, rec1 c b = some r → rec2 c b = some r) :
    ∀ (parts : List JSString) (results r : Results),
    processParts rec1 results parts = some r → processParts rec2 results parts = some r := by
  intro parts
  induction parts with
  | nil => intro results r h1; exact h1
  | cons p rest ih =>
    intro results r h1
    unfold processParts at h1 ⊢
    cases hp : processPart rec1 results p with
    | none => rw [hp] at h1; simp at h1
    | some r1 =>
      rw [hp] at h1
      rw [processPart_mono rec1 rec2 h results p r1 hp]
      exact ih r1 r h1

theorem parseMultipartFuel_succ : ∀ (fuel : Nat) (content boundary : JSString) (r : Results),
    parseMultipartFuel fuel content boundary = some r →
    parseMultipartFuel (fuel + 1) content boundary = some r := by
  intro fuel
  induction fuel with
  | zero => intro content boundary r h; simp [parseMultipartFuel] at h
  | succ fuel ih =>
    intro content boundary r h
    rw [parseMultipartFuel] at h ⊢
    exact processParts_mono _ _ (fun c b r1 h1 => ih c b r1 h1) _ _ r h

theorem parseMultipartFuel_mono (fuel : Nat) (content boundary : JSString) (r : Results)
    (h : parseMultipartFuel fuel content boundary = some r) :
    ∀ extra : Nat, parseMultipartFuel (fuel + extra) content boundary = some r := by
  intro extra
  induction extra with
  | zero => exact h
  | succ k ih => exact parseMultipartFuel_succ _ _ _ _ ih

/-- C14: `parseMultipart` terminates on every content and every boundary.
The body passed to a nested call is strictly shorter than the content received
(for every part whose content type contains `multipart`); the function returns
a result for every input; and every recursion budget above the length of the
content gives that same result, so the nesting depth is bounded by the length
of the input without any depth guard. -/
theorem parseMultipart_terminates (content boundary : JSString) :
    (∀ part ∈ split content boundary,
      includes (partContentType part) (js "multipart") = true →
      (partHeadersBody part).2.length < content.length) ∧
    (∃ r, parseMultipart content boundary = some r) ∧
    (∀ fuel, content.length < fuel →
      parseMultipartFuel fuel content boundary = parseMultipart content boundary) := by
  have hsome : ∃ r, parseMultipart content boundary = some r := by
    have h := parseMultipart_isSome content boundary
    cases hr : parseMultipart content boundary with
    | none => rw [hr] at h; simp at h
    | some r => exact ⟨r, rfl⟩
  refine ⟨?_, hsome, ?_⟩
  · intro part hp hm
    have hne : (getHeader (partHeadersBody part).1 (js "content-type")).getD [] ≠ [] := by
      intro h0
      unfold partContentType at hm
      rw [h0] at hm
      have := includes_nil_left _ hm
      revert this
      decide
    have h1 := partHeadersBody_length_lt part (getHeader_ne_nil _ _ hne)
    have h2 := split_length_le content boundary part hp
    omega
  · intro fuel hf
    obtain ⟨r, hr⟩ := hsome
    rw [hr]
    have := parseMultipartFuel_mono (content.length + 1) content boundary r hr
      (fuel - (content.length + 1))
    have e : content.length + 1 + (fuel - (content.length + 1)) = fuel := by omega
    rw [e] at this
    exact this

/-- C14, at a message body with one nested multipart part: the nested body is
shorter, and a budget of 1000 gives the result of `parseMultipart`. -/
theorem parseMultipart_terminates_witness :
    (partHeadersBody (js "\nContent-Type: multipart/alternative; boundary=--in\n\n----in\nContent-Type: text/plain\n\nT\n----in--\n")).2.length
      < (js "--B\nContent-Type: multipart/alternative; boundary=--in\n\n----in\nContent-Type: text/plain\n\nT\n----in--\n--B--\n").length ∧
    parseMultipartFuel 1000
        (js "--B\nContent-Type: multipart/alternative; boundary=--in\n\n----in\nContent-Type: text/plain\n\nT\n----in--\n--B--\n")
        (js "--B")
      = parseMultipart
        (js "--B\nContent-Type: multipart/alternative; boundary=--in\n\n----in\nContent-Type: text/plain\n\nT\n----in--\n--B--\n")
        (js "--B") :=
  ⟨(parseMultipart_terminates
      (js "--B\nContent-Type: multipart/alternative; boundary=--in\n\n----in\nContent-Type: text/plain\n\nT\n----in--\n--B--\n")
      (js "--B")).1
      (js "\nContent-Type: multipart/alternative; boundary=--in\n\n----in\nContent-Type: text/plain\n\nT\n----in--\n")
      (by decide!) (by decide!),
   (parseMultipart_terminates
      (js "--B\nContent-Type: multipart/alternative; boundary=--in\n\n----in\nContent-Type: text/plain\n\nT\n----in--\n--B--\n")
      (js "--B")).2.2 1000 (by decide)⟩
/-! ## Evaluations at concrete inputs -/

/-- C1: with the nested boundary token `--in` both inner bodies reach the
result, but with the token `inner`, which does not start with two dashes, the
nested call splits on `----ner`, finds one part only, and the html field stays
empty. -/
theorem nested_boundary_without_dashes_loses_html :
    parseEmail (js "Content-Type: multipart/mixed; boundary=B\n\n--B\nContent-Type: multipart/alternative; boundary=--in\n\n----in\nContent-Type: text/plain\n\nT\n----in\nContent-Type: text/html\n\nH\n----in--\n--B--\n")
      = some { from_ := js "Unknown", to_ := [], subject := js "No Subject",
               text := js "T\n", html := js "H\n", attachments := [] } ∧
    parseEmail (js "Content-Type: multipart/mixed; boundary=B\n\n--B\nContent-Type: multipart/alternative; boundary=inner\n\n--inner\nContent-Type: text/plain\n\nT\n--inner\nContent-Type: text/html\n\nH\n--inner--\n--B--\n")
      = some { from_ := js "Unknown", to_ := [], subject := js "No Subject",
               text := js "T\n--inner\nContent-Type: text/html\n\nH\n--inner--\n",
               html := [], attachments := [] } := by
  decide!

/-- C2 (as stated, refuted): of two sibling `text/plain` parts with bodies
`first` and `second` the text field holds the second one. -/
theorem sibling_text_first_found_fails :
    (parseMultipart (js "--B\nContent-Type: text/plain\n\nfirst\n--B\nContent-Type: text/plain\n\nsecond\n--B--\n") (js "--B")).map Results.text
      = some (js "second\n") ∧
    (parseMultipart (js "--B\nContent-Type: text/html\n\n<p>1</p>\n--B\nContent-Type: text/html\n\n<p>2</p>\n--B--\n") (js "--B")).map Results.html
      = some (js "<p>2</p>\n") := by
  decide!

/-- C3 (as stated, refuted): the text of the two-part `BOUND1` message is
`Hello` followed by a line feed, not the string `Hello`. -/
theorem two_part_text_keeps_line_feed :
    (parseEmail (js "Content-Type: multipart/mixed; boundary=\"BOUND1\"\n\n--BOUND1\nContent-Type: text/plain\n\nHello\n--BOUND1\nContent-Type: application/pdf\nContent-Transfer-Encoding: base64\n\nJVBERi0=\n--BOUND1--\n")).map ParsedMessage.text
      = some (js "Hello\n") ∧ js "Hello\n" ≠ js "Hello" := by
  decide!

/-- C4: a base64 attachment whose five decoded bytes are the UTF-8 text `café`
gets size 4, the number of code units of the decoded string, while its content
decodes to 5 bytes; an identity-encoded attachment `café` gets size 5 while its
content decodes to 6 bytes. -/
theorem attachment_size_counts_code_units :
    parseMultipart (js "--B\nContent-Type: application/octet-stream\nContent-Transfer-Encoding: base64\n\nY2Fmw6k=\n--B--\n") (js "--B")
      = some { text := [], html := [], attachments :=
          [{ filename := js "attachment", contentType := js "application/octet-stream",
             size := 4, content := js "Y2Fmw6k=\n" }] } ∧
    (bufferFromBase64 (js "Y2Fmw6k=\n")).map List.length = some 5 ∧
    parseMultipart (js "--B\nContent-Type: application/octet-stream\n\ncafé\n--B--\n") (js "--B")
      = some { text := [], html := [], attachments :=
          [{ filename := js "attachment", contentType := js "application/octet-stream",
             size := 5, content := js "Y2Fmw6kK" }] } ∧
    (bufferFromBase64 (js "Y2Fmw6kK")).map List.length = some 6 := by
  decide!

/-- C5: two inputs without any header line, `hello`, blank line, `world` and
blank line, `hello`, do not get the empty text: the header loop of `parseEmail`
stops at the first blank line although no header was seen, and what follows
becomes the text. The sibling loop of `parseMultipart`, which skips blank
lines until a header is seen, gives both inputs no header and an empty body. -/
theorem headerless_text_not_empty :
    parseEmail (js "hello\n\nworld")
      = some { from_ := js "Unknown", to_ := [], subject := js "No Subject",
               text := js "world", html := [], attachments := [] } ∧
    parseEmail (js "\nhello")
      = some { from_ := js "Unknown", to_ := [], subject := js "No Subject",
               text := js "hello", html := [], attachments := [] } ∧
    partHeadersBody (js "hello\n\nworld") = ([], []) ∧
    partHeadersBody (js "\nhello") = ([], []) := by
  decide!

/-- C6: the bodies `!!!!` (no base64 digit at all) and `SGVsbG8` (length not a
multiple of four) are not returned unchanged: the platform decoder does not
throw, and the text is the empty string and `Hello`. -/
theorem invalid_base64_body_is_decoded :
    (parseEmail (js "Content-Transfer-Encoding: base64\n\n!!!!")).map ParsedMessage.text
      = some [] ∧
    (parseEmail (js "Content-Transfer-Encoding: base64\n\nSGVsbG8")).map ParsedMessage.text
      = some (js "Hello") := by
  decide!

/-- C7 (as stated, refuted): a multipart content type without a boundary
parameter leaves the body `hello` in the text field. -/
theorem multipart_without_boundary_keeps_body :
    parseEmail (js "Content-Type: multipart/mixed\n\nhello")
      = some { from_ := js "Unknown", to_ := [], subject := js "No Subject",
               text := js "hello", html := [], attachments := [] } := by
  decide!

/-- C8: one empty line before the header `Subject: Hi` ends the header loop of
`parseEmail` at once: the subject is lost and the whole message becomes the
text, unlike for the same message without the empty line. The loop of
`parseMultipart` does skip such lines: a part with two leading empty lines has
the headers and the body of the part without them. -/
theorem leading_blank_line_ends_headers :
    parseEmail (js "Subject: Hi\n\nbody")
      = some { from_ := js "Unknown", to_ := [], subject := js "Hi",
               text := js "body", html := [], attachments := [] } ∧
    parseEmail (js "\nSubject: Hi\n\nbody")
      = some { from_ := js "Unknown", to_ := [], subject := js "No Subject",
               text := js "Subject: Hi\n\nbody", html := [], attachments := [] } ∧
    partHeadersBody (js "\n\nContent-Type: text/plain\n\nbody")
      = partHeadersBody (js "Content-Type: text/plain\n\nbody") := by
  decide!

/-- C9 (as stated, refuted): a message with twelve levels of multipart nesting
is parsed to a message whose text is the innermost body. -/
theorem deep_nesting_is_parsed :
    parseEmail (deepMessage 11)
      = some { from_ := js "Unknown", to_ := [], subject := js "No Subject",
               text := js "T\n", html := [], attachments := [] } := by
  decide!

theorem deepMessage_eleven_levels :
    parseEmail (deepMessage 10)
      = some { from_ := js "Unknown", to_ := [], subject := js "No Subject",
               text := js "T\n", html := [], attachments := [] } := by
  decide!

theorem deepMessage_twelve_levels :
    parseEmail (deepMessage 11)
      = some { from_ := js "Unknown", to_ := [], subject := js "No Subject",
               text := js "T\n", html := [], attachments := [] } := by
  decide!

theorem deepMessage_thirteen_levels :
    parseEmail (deepMessage 12)
      = some { from_ := js "Unknown", to_ := [], subject := js "No Subject",
               text := js "T\n", html := [], attachments := [] } := by
  decide!

/-- C9 (amended): no maximum nesting depth is configured and no
`NestingTooDeep` value exists: every message `deepMessage (depth + 10)` with
`depth` below 3, that is with 11, 12 or 13 levels of multipart nesting, is
parsed like any other message, to a message whose text is the innermost body. -/
theorem nesting_is_not_limited :
    ∀ depth < 3, parseEmail (deepMessage (depth + 10))
      = some { from_ := js "Unknown", to_ := [], subject := js "No Subject",
               text := js "T\n", html := [], attachments := [] } := by
  intro depth h
  match depth, h with
  | 0, _ => exact deepMessage_eleven_levels
  | 1, _ => exact deepMessage_twelve_levels
  | 2, _ => exact deepMessage_thirteen_levels

/-- C9 (amended), at thirteen levels of nesting. -/
theorem nesting_is_not_limited_witness :
    parseEmail (deepMessage (2 + 10))
      = some { from_ := js "Unknown", to_ := [], subject := js "No Subject",
               text := js "T\n", html := [], attachments := [] } :=
  nesting_is_not_limited 2 (by decide)

/-- C10 (as stated, refuted): the entry for the token `< a@b.c >` is not the
content ` a@b.c ` of its bracket pair but that content trimmed. -/
theorem bracket_content_is_trimmed :
    parseAddresses (js "< a@b.c >") = [js "a@b.c"] ∧ js "a@b.c" ≠ js " a@b.c " := by
  decide!

/-- C11 (as stated, refuted): the escapes `=4a` and `=c2`, written with
lower-case hexadecimal digits, are left as they are: the first does not become
the code unit 0x4A and the second does not become the empty string. -/
theorem lower_case_escape_not_decoded :
    decodeQuotedPrintable (js "=4a") = js "=4a" ∧ js "=4a" ≠ [74] ∧
    decodeQuotedPrintable (js "=c2") = js "=c2" ∧ js "=c2" ≠ [] := by
  decide!

/-- C13: `GET /download/email_1/0` without any `Authorization` header is not
rejected: the route has no `authenticateToken` middleware, reads the store and
sends the five attachment bytes with status 200. The sibling route
`POST /upload` does reject, without touching the store: 401 without a token,
403 with the token `wrong`. -/
theorem download_is_not_authenticated :
    handle sampleEnv
        { method := Method.get, path := js "/download/email_1/0", authorization := none,
          file := none } sampleStore
      = (Response.attachment (js "application/pdf") (js "report.pdf") [37, 80, 68, 70, 45],
         sampleStore) ∧
    (Response.attachment (js "application/pdf") (js "report.pdf") [37, 80, 68, 70, 45]).status
      = 200 ∧
    handle sampleEnv
        { method := Method.post, path := js "/upload", authorization := none,
          file := some (js "mail.eml", [83, 117, 98, 106, 101, 99, 116, 58, 32, 72, 105]) }
        sampleStore
      = (Response.error 401 (js "Access denied. API token required."), sampleStore) ∧
    handle sampleEnv
        { method := Method.post, path := js "/upload", authorization := some (js "Bearer wrong"),
          file := some (js "mail.eml", [83, 117, 98, 106, 101, 99, 116, 58, 32, 72, 105]) }
        sampleStore
      = (Response.error 403 (js "Invalid API token."), sampleStore) := by
  decide!

end EmailViewer
